import Mathlib

/-!
# Verification of the SRG_Rev_Copilot ETL / health-monitoring core

Shallow embedding of `srg_rm_copilot` (etl.py, health.py, wheelhouse.py,
config.py) together with proofs about the embedded operations.

Conventions:
* Python `datetime.date` / `datetime.datetime` values are embedded as the
  `Date` structure below (year, month, day).  Python's date arithmetic
  (`+ timedelta(days=1)`, `- timedelta(days=n)`, subtraction `.days`,
  comparison) coincides on valid dates with the structural operations
  `nextDay`, `prevDay`, ordinal subtraction and lexicographic comparison
  defined here.
* Fallible Python code (raising exceptions) is embedded with `Except`.
* Machine integers do not occur (Python integers are unbounded), so `Nat`
  and `Int` are used directly.
-/

namespace SrgRmCopilot

/-- A calendar date, embedding Python `datetime.date(year, month, day)`. -/
structure Date where
  year : Nat
  month : Nat
  day : Nat
deriving DecidableEq, Repr

/-- Proleptic Gregorian leap-year rule (Python `calendar.isleap`). -/
def isLeapYear (y : Nat) : Bool :=
  (y % 4 == 0 && y % 100 != 0) || y % 400 == 0

/-- Number of days in month `m` of year `y` (months are 1-based). -/
def daysInMonth (y m : Nat) : Nat :=
  if m = 2 then (if isLeapYear y then 29 else 28)
  else if m = 4 ∨ m = 6 ∨ m = 9 ∨ m = 11 then 30
  else 31

/-- Days in year `y` that fall strictly before month `m` (so
`daysBeforeMonth y 1 = 0`). -/
def daysBeforeMonth (y : Nat) : Nat → Nat
  | 0 => 0
  | Nat.succ mp => if mp = 0 then 0 else daysBeforeMonth y mp + daysInMonth y mp

/-- Total number of days in year `y`. -/
def daysInYear (y : Nat) : Nat := daysBeforeMonth y 13

/-- Days falling in years strictly before year `y` (counting from year 0):
`365y` plus the number of leap years among `0, ..., y-1`, in closed form
so that ordinals of modern dates evaluate quickly. -/
def daysBeforeYear (y : Nat) : Nat :=
  y * 365 + (y + 3) / 4 - (y + 99) / 100 + (y + 399) / 400

/-- Day number of a date.  Offset from Python's `date.toordinal` by a
constant (Python counts from year 1, this counts from year 0); every use in
the embedding is a difference of ordinals, where the offset cancels. -/
def Date.toOrdinal (d : Date) : Nat :=
  daysBeforeYear d.year + daysBeforeMonth d.year d.month + d.day

/-- The validity invariant Python's `datetime.date` constructor enforces. -/
def ValidDate (d : Date) : Prop :=
  1 ≤ d.month ∧ d.month ≤ 12 ∧ 1 ≤ d.day ∧ d.day ≤ daysInMonth d.year d.month

instance (d : Date) : Decidable (ValidDate d) := by
  unfold ValidDate; infer_instance

/-- Lexicographic (= chronological) strict order on dates; Python compares
date objects exactly this way. -/
def DateLt (a b : Date) : Prop :=
  a.year < b.year ∨ (a.year = b.year ∧
    (a.month < b.month ∨ (a.month = b.month ∧ a.day < b.day)))

/-- Lexicographic (= chronological) order on dates. -/
def DateLe (a b : Date) : Prop := DateLt a b ∨ a = b

instance (a b : Date) : Decidable (DateLt a b) := by
  unfold DateLt; infer_instance

instance (a b : Date) : Decidable (DateLe a b) := by
  unfold DateLe; infer_instance

/-- Embeds Python `date + timedelta(days=1)`: for a valid date this is the
structural successor day. -/
def nextDay (d : Date) : Date :=
  if d.day < daysInMonth d.year d.month then ⟨d.year, d.month, d.day + 1⟩
  else if d.month < 12 then ⟨d.year, d.month + 1, 1⟩
  else ⟨d.year + 1, 1, 1⟩

/-- Embeds Python `date - timedelta(days=1)`: for a valid date this is the
structural predecessor day. -/
def prevDay (d : Date) : Date :=
  if 1 < d.day then ⟨d.year, d.month, d.day - 1⟩
  else if 1 < d.month then ⟨d.year, d.month - 1, daysInMonth d.year (d.month - 1)⟩
  else ⟨d.year - 1, 12, 31⟩

/-- Embeds Python `date - timedelta(days=n)`. -/
def subDays (d : Date) : Nat → Date
  | 0 => d
  | Nat.succ n => prevDay (subDays d n)

/-- Left-pad the decimal representation of `n` with zeros to width `w`
(Python `strftime` zero padding). -/
def padZero (w n : Nat) : String :=
  let s := toString n
  String.mk (List.replicate (w - s.length) '0') ++ s

/-- Embeds `strftime("%Y-%m-%d")`. -/
def formatDate (d : Date) : String :=
  padZero 4 d.year ++ "-" ++ padZero 2 d.month ++ "-" ++ padZero 2 d.day

/-! ### Calendar lemmas -/

theorem daysInMonth_pos (y m : Nat) : 1 ≤ daysInMonth y m := by
  unfold daysInMonth
  split <;> [skip; split] <;> first | split <;> omega | omega

theorem daysInMonth_le_31 (y m : Nat) : daysInMonth y m ≤ 31 := by
  unfold daysInMonth
  split <;> [skip; split] <;> first | split <;> omega | omega

theorem daysBeforeMonth_succ (y m : Nat) (h : 1 ≤ m) :
    daysBeforeMonth y (m + 1) = daysBeforeMonth y m + daysInMonth y m := by
  cases m with
  | zero => omega
  | succ mp => simp [daysBeforeMonth]

theorem daysBeforeMonth_step (y k : Nat) :
    daysBeforeMonth y k ≤ daysBeforeMonth y (k + 1) := by
  cases k with
  | zero => simp [daysBeforeMonth]
  | succ kp => simp [daysBeforeMonth]

theorem daysBeforeMonth_mono (y : Nat) {m m' : Nat} (h : m ≤ m') :
    daysBeforeMonth y m ≤ daysBeforeMonth y m' := by
  induction m' with
  | zero => have : m = 0 := by omega
            subst this; exact Nat.le_refl _
  | succ k ih =>
    rcases Nat.lt_or_ge m (k + 1) with h2 | h2
    · exact Nat.le_trans (ih (by omega)) (daysBeforeMonth_step y k)
    · have : m = k + 1 := by omega
      subst this; exact Nat.le_refl _

theorem daysInYear_eq (y : Nat) :
    daysInYear y = if isLeapYear y then 366 else 365 := by
  have s12 : daysBeforeMonth y 13 = daysBeforeMonth y 12 + daysInMonth y 12 := by
    simpa using daysBeforeMonth_succ y 12 (by omega)
  have s11 : daysBeforeMonth y 12 = daysBeforeMonth y 11 + daysInMonth y 11 := by
    simpa using daysBeforeMonth_succ y 11 (by omega)
  have s10 : daysBeforeMonth y 11 = daysBeforeMonth y 10 + daysInMonth y 10 := by
    simpa using daysBeforeMonth_succ y 10 (by omega)
  have s9 : daysBeforeMonth y 10 = daysBeforeMonth y 9 + daysInMonth y 9 := by
    simpa using daysBeforeMonth_succ y 9 (by omega)
  have s8 : daysBeforeMonth y 9 = daysBeforeMonth y 8 + daysInMonth y 8 := by
    simpa using daysBeforeMonth_succ y 8 (by omega)
  have s7 : daysBeforeMonth y 8 = daysBeforeMonth y 7 + daysInMonth y 7 := by
    simpa using daysBeforeMonth_succ y 7 (by omega)
  have s6 : daysBeforeMonth y 7 = daysBeforeMonth y 6 + daysInMonth y 6 := by
    simpa using daysBeforeMonth_succ y 6 (by omega)
  have s5 : daysBeforeMonth y 6 = daysBeforeMonth y 5 + daysInMonth y 5 := by
    simpa using daysBeforeMonth_succ y 5 (by omega)
  have s4 : daysBeforeMonth y 5 = daysBeforeMonth y 4 + daysInMonth y 4 := by
    simpa using daysBeforeMonth_succ y 4 (by omega)
  have s3 : daysBeforeMonth y 4 = daysBeforeMonth y 3 + daysInMonth y 3 := by
    simpa using daysBeforeMonth_succ y 3 (by omega)
  have s2 : daysBeforeMonth y 3 = daysBeforeMonth y 2 + daysInMonth y 2 := by
    simpa using daysBeforeMonth_succ y 2 (by omega)
  have s1 : daysBeforeMonth y 2 = daysBeforeMonth y 1 + daysInMonth y 1 := by
    simpa using daysBeforeMonth_succ y 1 (by omega)
  have s0 : daysBeforeMonth y 1 = 0 := rfl
  have d1 : daysInMonth y 1 = 31 := rfl
  have d3 : daysInMonth y 3 = 31 := rfl
  have d4 : daysInMonth y 4 = 30 := rfl
  have d5 : daysInMonth y 5 = 31 := rfl
  have d6 : daysInMonth y 6 = 30 := rfl
  have d7 : daysInMonth y 7 = 31 := rfl
  have d8 : daysInMonth y 8 = 31 := rfl
  have d9 : daysInMonth y 9 = 30 := rfl
  have d10 : daysInMonth y 10 = 31 := rfl
  have d11 : daysInMonth y 11 = 30 := rfl
  have d12 : daysInMonth y 12 = 31 := rfl
  have d2 : daysInMonth y 2 = if isLeapYear y then 29 else 28 := rfl
  unfold daysInYear
  cases hb : isLeapYear y
  · simp only [hb, Bool.false_eq_true, if_false] at d2 ⊢
    omega
  · simp only [hb, if_true] at d2 ⊢
    omega

theorem isLeapYear_iff (y : Nat) :
    isLeapYear y = true ↔ ((y % 4 = 0 ∧ ¬ y % 100 = 0) ∨ y % 400 = 0) := by
  simp [isLeapYear]

set_option maxHeartbeats 1000000 in
theorem daysBeforeYear_succ (y : Nat) :
    daysBeforeYear (y + 1) = daysBeforeYear y + daysInYear y := by
  rw [daysInYear_eq]
  by_cases h : isLeapYear y
  · rw [if_pos h]
    rw [isLeapYear_iff] at h
    unfold daysBeforeYear
    omega
  · rw [if_neg h]
    rw [isLeapYear_iff] at h
    unfold daysBeforeYear
    omega

theorem daysBeforeYear_mono {y y' : Nat} (h : y ≤ y') :
    daysBeforeYear y ≤ daysBeforeYear y' := by
  induction y' with
  | zero => have : y = 0 := by omega
            subst this; exact Nat.le_refl _
  | succ k ih =>
    rcases Nat.lt_or_ge y (k + 1) with h2 | h2
    · exact Nat.le_trans (ih (by omega)) (by rw [daysBeforeYear_succ]; omega)
    · have : y = k + 1 := by omega
      subst this; exact Nat.le_refl _

/-- Within a valid date, the in-year day offset is bounded by the year
length. -/
theorem inYear_le_daysInYear {d : Date} (h : ValidDate d) :
    daysBeforeMonth d.year d.month + d.day ≤ daysInYear d.year := by
  obtain ⟨h1, h2, h3, h4⟩ := h
  have hs : daysBeforeMonth d.year (d.month + 1)
      = daysBeforeMonth d.year d.month + daysInMonth d.year d.month :=
    daysBeforeMonth_succ _ _ h1
  have hm : daysBeforeMonth d.year (d.month + 1) ≤ daysBeforeMonth d.year 13 :=
    daysBeforeMonth_mono _ (by omega)
  unfold daysInYear
  omega

/-- `toOrdinal` is strictly monotone with respect to the chronological
order, on valid dates. -/
theorem toOrdinal_lt_of_dateLt {a b : Date} (ha : ValidDate a) (hb : ValidDate b)
    (h : DateLt a b) : a.toOrdinal < b.toOrdinal := by
  obtain ⟨ya, ma, da⟩ := a
  obtain ⟨yb, mb, db⟩ := b
  obtain ⟨ha1, ha2, ha3, ha4⟩ := ha
  obtain ⟨hb1, hb2, hb3, hb4⟩ := hb
  simp only at ha1 ha2 ha3 ha4 hb1 hb2 hb3 hb4
  unfold Date.toOrdinal
  simp only
  rcases h with hy | ⟨hy, hm | ⟨hm, hd⟩⟩
  · simp only at hy
    have h1 : daysBeforeMonth ya ma + da ≤ daysInYear ya :=
      inYear_le_daysInYear (d := ⟨ya, ma, da⟩) ⟨ha1, ha2, ha3, ha4⟩
    have h2 : daysBeforeYear (ya + 1) ≤ daysBeforeYear yb :=
      daysBeforeYear_mono (by omega)
    have h3 := daysBeforeYear_succ ya
    omega
  · simp only at hy hm
    subst hy
    have h1 : daysBeforeMonth ya (ma + 1)
        = daysBeforeMonth ya ma + daysInMonth ya ma :=
      daysBeforeMonth_succ _ _ ha1
    have h2 : daysBeforeMonth ya (ma + 1) ≤ daysBeforeMonth ya mb :=
      daysBeforeMonth_mono _ (by omega)
    omega
  · simp only at hy hm hd
    subst hy; subst hm
    omega

theorem dateLt_trichotomy (a b : Date) : DateLt a b ∨ a = b ∨ DateLt b a := by
  unfold DateLt
  rcases Nat.lt_trichotomy a.year b.year with h | h | h
  · exact Or.inl (Or.inl h)
  · rcases Nat.lt_trichotomy a.month b.month with h2 | h2 | h2
    · exact Or.inl (Or.inr ⟨h, Or.inl h2⟩)
    · rcases Nat.lt_trichotomy a.day b.day with h3 | h3 | h3
      · exact Or.inl (Or.inr ⟨h, Or.inr ⟨h2, h3⟩⟩)
      · refine Or.inr (Or.inl ?_)
        cases a; cases b
        simp only at h h2 h3
        subst h; subst h2; subst h3; rfl
      · exact Or.inr (Or.inr (Or.inr ⟨h.symm, Or.inr ⟨h2.symm, h3⟩⟩))
    · exact Or.inr (Or.inr (Or.inr ⟨h.symm, Or.inl h2⟩))
  · exact Or.inr (Or.inr (Or.inl h))

/-- On valid dates, ordinal equality implies equality. -/
theorem date_eq_of_toOrdinal_eq {a b : Date} (ha : ValidDate a) (hb : ValidDate b)
    (h : a.toOrdinal = b.toOrdinal) : a = b := by
  rcases dateLt_trichotomy a b with hlt | heq | hgt
  · exact absurd h (Nat.ne_of_lt (toOrdinal_lt_of_dateLt ha hb hlt))
  · exact heq
  · exact absurd h.symm (Nat.ne_of_lt (toOrdinal_lt_of_dateLt hb ha hgt))

/-- On valid dates, the chronological order coincides with the ordinal
order. -/
theorem dateLe_iff_toOrdinal_le {a b : Date} (ha : ValidDate a) (hb : ValidDate b) :
    DateLe a b ↔ a.toOrdinal ≤ b.toOrdinal := by
  constructor
  · rintro (h | rfl)
    · exact Nat.le_of_lt (toOrdinal_lt_of_dateLt ha hb h)
    · exact Nat.le_refl _
  · intro h
    rcases dateLt_trichotomy a b with hlt | heq | hgt
    · exact Or.inl hlt
    · exact Or.inr heq
    · exact absurd (toOrdinal_lt_of_dateLt hb ha hgt) (by omega)

/-- `nextDay` preserves validity. -/
theorem nextDay_valid {d : Date} (h : ValidDate d) : ValidDate (nextDay d) := by
  obtain ⟨y, m, dd⟩ := d
  obtain ⟨h1, h2, h3, h4⟩ := h
  simp only at h1 h2 h3 h4
  unfold nextDay
  simp only
  split
  · exact ⟨h1, h2, by simp only; omega, by simp only; omega⟩
  · split
    · exact ⟨by simp only; omega, by simp only; omega, by simp only; omega,
        by simp only; exact daysInMonth_pos _ _⟩
    · exact ⟨by simp only; omega, by simp only; omega, by simp only; omega,
        by simp only; exact daysInMonth_pos _ _⟩

/-- On valid dates, `nextDay` advances the ordinal by exactly one. -/
theorem nextDay_toOrdinal {d : Date} (h : ValidDate d) :
    (nextDay d).toOrdinal = d.toOrdinal + 1 := by
  obtain ⟨y, m, dd⟩ := d
  obtain ⟨h1, h2, h3, h4⟩ := h
  simp only at h1 h2 h3 h4
  unfold nextDay
  split
  · simp only [Date.toOrdinal]
    omega
  · rename_i hlt
    simp only at hlt
    split
    · rename_i hm12
      simp only at hm12
      have heq : dd = daysInMonth y m := by omega
      have hs : daysBeforeMonth y (m + 1)
          = daysBeforeMonth y m + daysInMonth y m :=
        daysBeforeMonth_succ _ _ h1
      simp only [Date.toOrdinal]
      omega
    · rename_i hm12
      simp only at hm12
      have hm : m = 12 := by omega
      subst hm
      have heq : dd = daysInMonth y 12 := by omega
      have hs : daysBeforeMonth y 13
          = daysBeforeMonth y 12 + daysInMonth y 12 := by
        simpa using daysBeforeMonth_succ y 12 (by omega)
      have hz : daysBeforeMonth (y + 1) 1 = 0 := by simp [daysBeforeMonth]
      simp only [Date.toOrdinal, daysBeforeYear_succ, daysInYear]
      omega

/-! ### Raw API records (etl.py data model)

A raw listing is a JSON object; only the generic key/value shape matters
to the embedded operations.  Insertion order of keys is retained, as in
Python dicts. -/

/-- A JSON-ish value as it occurs in a raw listing record. -/
inductive JValue where
  | null
  | str (s : String)
  | num (n : Int)
  | bool (b : Bool)
deriving DecidableEq, Repr

/-- Python `str(...)` on the values above. -/
def pyStr : JValue → String
  | .null => "None"
  | .str s => s
  | .num n => toString n
  | .bool b => if b then "True" else "False"

/-- A raw listing record: a JSON object (ordered key/value pairs). -/
structure Listing where
  fields : List (String × JValue)
deriving DecidableEq, Repr

/-- Python `dict.get(k)`: value of the first binding of `k`, if any. -/
def Listing.get (l : Listing) (k : String) : Option JValue :=
  (l.fields.find? (fun p => p.1 = k)).map (fun p => p.2)

/-- `str(listing.get("id", listing.get("listing_id", "unknown")))`
from `ETLProcessor._group_listings_by_id`. -/
def resolvedId (l : Listing) : String :=
  pyStr ((l.get "id").getD ((l.get "listing_id").getD (JValue.str "unknown")))

/-- One step of the grouping loop: append `l` to the group of `key`,
creating the group at the end if absent (Python dict insertion order). -/
def groupInsert (acc : List (String × List Listing)) (key : String)
    (l : Listing) : List (String × List Listing) :=
  match acc with
  | [] => [(key, [l])]
  | (k, ls) :: rest =>
    if k = key then (k, ls ++ [l]) :: rest
    else (k, ls) :: groupInsert rest key l

/-- Embeds `ETLProcessor._group_listings_by_id`: the loop over `listings`
building the `grouped` dict. -/
def groupListingsById (listings : List Listing) : List (String × List Listing) :=
  listings.foldl (fun acc l => groupInsert acc (resolvedId l) l) []

/-! ### Transform (etl.py `_transform_listing_data`)

Only the column set and the row count of the resulting pandas DataFrame
are modelled; cell-level coercions (`astype`, `to_numeric`, `to_datetime`)
do not change either and are omitted. -/

/-- The fixed schema returned for empty input (etl.py lines 71-93). -/
def emptySchemaColumns : List String :=
  ["listing_id", "title", "price", "location", "bedrooms", "bathrooms",
   "property_type", "listing_date", "last_updated", "amenities",
   "description", "host_id", "availability", "minimum_stay", "maximum_stay",
   "instant_book", "cancellation_policy", "review_score", "review_count",
   "latitude", "longitude"]

/-- A pandas DataFrame, abstracted to its column labels (in order) and its
row count. -/
structure DataFrame where
  columns : List String
  rows : Nat
deriving DecidableEq, Repr

/-- Column labels of `pd.DataFrame(listings)`: keys in order of first
appearance across the records. -/
def dfColumns (listings : List Listing) : List String :=
  (listings.flatMap (fun l => l.fields.map (fun p => p.1))).foldl
    (fun acc k => if k ∈ acc then acc else acc ++ [k]) []

/-- `df.rename(columns={old: new})`: relabels in place. -/
def renameColumn (cols : List String) (old new : String) : List String :=
  cols.map (fun c => if c = old then new else c)

/-- The `column_mapping` dict (etl.py lines 100-108). -/
def columnMapping : List (String × String) :=
  [("id", "listing_id"), ("name", "title"), ("price_per_night", "price"),
   ("address", "location"), ("room_type", "property_type"),
   ("created_at", "listing_date"), ("updated_at", "last_updated")]

/-- `df[col] = ...`: appends the column label if absent, otherwise leaves
the labels unchanged (the assignment overwrites in place). -/
def setColumn (cols : List String) (k : String) : List String :=
  if k ∈ cols then cols else cols ++ [k]

/-- Embeds `ETLProcessor._transform_listing_data` at the DataFrame level. -/
def transformListingData (listings : List Listing) : DataFrame :=
  if listings.isEmpty then
    { columns := emptySchemaColumns, rows := 0 }
  else
    let cols0 := dfColumns listings
    let cols1 := columnMapping.foldl
      (fun cols p => if p.1 ∈ cols then renameColumn cols p.1 p.2 else cols) cols0
    let cols2 := ["listing_id", "title", "price"].foldl setColumn cols1
    let cols3 := setColumn (setColumn cols2 "etl_processed_at") "etl_source"
    { columns := cols3, rows := listings.length }

/-! ### Partition paths (config.py) -/

/-- `os.path.join` for plain relative components (config.py
`get_data_path`). -/
def joinPath (base : String) (rest : String) : String :=
  if base = "" then rest else base ++ "/" ++ rest

/-- Embeds `Config.get_raw_data_path`:
`os.path.join(base, "raw", listing_id, f"{date}.parquet")`. -/
def getRawDataPath (basePath listingId date : String) : String :=
  joinPath basePath ("raw/" ++ listingId ++ "/" ++ date ++ ".parquet")

/-! ### Per-day processing (etl.py `process_date`)

The paged fetch is abstracted into the `listings` argument (callers pass
the result of `get_all_listings_for_date` or the mock fixture).  The
filesystem is threaded explicitly as the list of existing partition file
paths; writing is idempotent on that list (overwrite-in-place).  In this
pure model the per-listing `try`/`except` body cannot raise, and the
`strptime` date validation is reflected by taking an already-parsed
`Date`. -/

/-- Result dictionary of `process_date`. -/
structure ProcessResult where
  date : String
  totalListings : Nat
  uniqueListingIds : Nat
  filesWritten : Nat
  filePaths : List String
deriving DecidableEq, Repr

/-- The body of the per-group loop of `process_date` (etl.py lines
269-294): transform the group, skip it when the frame is empty, record the
would-be path, and (outside dry-run) write the partition —
overwrite-in-place on the path list — and bump the written count.  The
state is (file_paths, files_written, filesystem). -/
def processGroupStep (basePath dateStr : String) (dryRun : Bool)
    (st : List String × Nat × List String) (g : String × List Listing) :
    List String × Nat × List String :=
  let df := transformListingData g.2
  if df.rows = 0 then st
  else
    let path := getRawDataPath basePath g.1 dateStr
    let paths := st.1 ++ [path]
    if dryRun then (paths, st.2.1, st.2.2)
    else (paths, st.2.1 + 1, if path ∈ st.2.2 then st.2.2 else st.2.2 ++ [path])

/-- The per-group loop of `process_date`, folded over the grouped
listings. -/
def processGroups (basePath dateStr : String) (dryRun : Bool)
    (groups : List (String × List Listing)) (fs : List String) :
    List String × Nat × List String :=
  groups.foldl (processGroupStep basePath dateStr dryRun) ([], 0, fs)

/-- Embeds `ETLProcessor.process_date` (etl.py lines 224-316).  Returns
the result dictionary together with the updated filesystem. -/
def processDate (basePath : String) (day : Date) (listings : List Listing)
    (dryRun : Bool) (fs : List String) : ProcessResult × List String :=
  let dateStr := formatDate day
  if listings.isEmpty then
    ({ date := dateStr, totalListings := 0, uniqueListingIds := 0,
       filesWritten := 0, filePaths := [] }, fs)
  else
    let groups := groupListingsById listings
    let st := processGroups basePath dateStr dryRun groups fs
    ({ date := dateStr, totalListings := listings.length,
       uniqueListingIds := groups.length, filesWritten := st.2.1,
       filePaths := st.1 }, st.2.2)

/-! ### Day-range processing (etl.py `process_date_range`)

`process_date_range` is generic in what per-day processing does (the tests
patch `process_date`), so the embedding takes the per-day operation as a
function argument; `process_date` is one instance.  Only the two result
fields the range loop reads (`total_listings`, `files_written`) are kept.

The source advances the loop date with
`current_dt = current_dt.replace(day=current_dt.day + 1)`, which raises
`ValueError` whenever `day + 1` exceeds the length of the current month;
`replaceDaySucc` embeds that exactly. -/

/-- The two fields of a per-day result that the range loop reads. -/
structure DayOutcome where
  totalListings : Nat
  filesWritten : Nat
deriving DecidableEq, Repr

/-- The `while current_dt <= end_dt` loop of `process_date_range`
(etl.py lines 347-362).  Per-day failures are caught and recorded in the
results; the date increment
`current_dt = current_dt.replace(day=current_dt.day + 1)` sits OUTSIDE the
`try`, Python validates the new day against the current month, and the
resulting `ValueError` aborts the whole call. -/
def rangeLoop (processDay : Date → Except String DayOutcome) (endD : Date) :
    Nat → Date → List (String × Except String DayOutcome) →
    Except String (List (String × Except String DayOutcome))
  | 0, _, acc => Except.ok acc
  | Nat.succ fuel, cur, acc =>
    if DateLe cur endD then
      let acc' := acc ++ [(formatDate cur, processDay cur)]
      if cur.day + 1 ≤ daysInMonth cur.year cur.month then
        rangeLoop processDay endD fuel ⟨cur.year, cur.month, cur.day + 1⟩ acc'
      else Except.error "ValueError: day is out of range for month"
    else Except.ok acc

/- The increment keeps the loop inside the starting month: the recursion
only continues while `day + 1 <= daysInMonth <= 31`, so the day values
along a call chain grow strictly and stay at most 31, giving at most 32
iterations.  `processDateRange` passes 32 units of fuel, so the fuel-0
branch is unreachable and the fuel-based recursion coincides with the
source's unbounded `while` loop. -/

/-- `True` exactly on non-error entries (the `"error" not in r` test of
the summary computation). -/
def entryIsOk : Except String DayOutcome → Bool
  | Except.ok _ => true
  | Except.error _ => false

/-- Summary dictionary of `process_date_range`. -/
structure RangeSummary where
  dateRange : String
  totalDatesProcessed : Nat
  totalDatesFailed : Nat
  totalListings : Nat
  totalFilesWritten : Nat
  resultsByDate : List (String × Except String DayOutcome)

/-- Embeds `ETLProcessor.process_date_range` (etl.py lines 322-380), over
already-parsed start/end dates. -/
def processDateRange (processDay : Date → Except String DayOutcome)
    (startD endD : Date) : Except String RangeSummary :=
  if DateLt endD startD then
    Except.error "Start date must be before or equal to end date"
  else
    match rangeLoop processDay endD 32 startD [] with
    | Except.error e => Except.error e
    | Except.ok entries =>
      Except.ok
        { dateRange := formatDate startD ++ " to " ++ formatDate endD
          totalDatesProcessed :=
            (entries.filter (fun p => entryIsOk p.2)).length
          totalDatesFailed :=
            (entries.filter (fun p => !entryIsOk p.2)).length
          totalListings :=
            (entries.map (fun p => match p.2 with
              | Except.ok r => r.totalListings
              | Except.error _ => 0)).sum
          totalFilesWritten :=
            (entries.map (fun p => match p.2 with
              | Except.ok r => r.filesWritten
              | Except.error _ => 0)).sum
          resultsByDate := entries }

/-! ### Health scanner data model (health.py)

A partition file on disk, as the scanner sees it.  `stemDate` is the
filename stem parsed as a `YYYY-MM-DD` date: `none` stands for a stem that
`strptime` rejects (the `"unknown"` sentinel string behaves the same way
everywhere the claims touch, so the two are identified; the scanner's
`date` strings are carried in parsed form).  `content = none` models a
file `pd.read_parquet` cannot read. -/
structure RawFile where
  pathParts : List String
  stemDate : Option Date
  sizeBytes : Nat
  content : Option (Nat × List String)
deriving DecidableEq, Repr

/-- A `file_info` dictionary produced by `scan_data_files` (filesystem
timestamps and the rounded `size_mb` display field are not modelled; no
claim mentions them). -/
structure FileInfo where
  filePath : String
  listingId : String
  date : Option Date
  sizeBytes : Nat
  rowCount : Int
  columnCount : Nat
  columns : List String
deriving DecidableEq, Repr

/-- The per-file body of the `scan_data_files` loop (health.py lines
53-91): parse `(listing_id, date)` from the path, and on a read failure
record the `-1` row-count sentinel and empty columns instead of dropping
the file. -/
def scanFile (f : RawFile) : FileInfo :=
  let listingId :=
    if 2 ≤ f.pathParts.length then f.pathParts.getD (f.pathParts.length - 2) "unknown"
    else "unknown"
  let date := if 2 ≤ f.pathParts.length then f.stemDate else none
  let path := String.intercalate "/" f.pathParts
  match f.content with
  | some (rows, cols) =>
    { filePath := path, listingId := listingId, date := date,
      sizeBytes := f.sizeBytes, rowCount := (rows : Int),
      columnCount := cols.length, columns := cols }
  | none =>
    { filePath := path, listingId := listingId, date := date,
      sizeBytes := f.sizeBytes, rowCount := -1,
      columnCount := 0, columns := [] }

/-- Embeds `HealthMonitor.scan_data_files` over the list of partition
files found under the raw-data root (in `rglob` order).  `stat` is assumed
to succeed, so the surrounding `try`/`except` never skips a file. -/
def scanDataFiles (files : List RawFile) : List FileInfo :=
  files.map scanFile

/-! ### Summary statistics (health.py `calculate_summary_stats`) -/

/-- Insertion step of an insertion sort by chronological order. -/
def insertSorted (d : Date) : List Date → List Date
  | [] => [d]
  | e :: rest => if DateLe d e then d :: e :: rest else e :: insertSorted d rest

/-- Sorting a list of dates chronologically (Python `list.sort` /
`sorted`; on the duplicate-free lists the code sorts, any correct sort
produces the same list). -/
def sortDates (l : List Date) : List Date := l.foldr insertSorted []

/-- Summary dictionary of `calculate_summary_stats`.  Monetary-style
display fields (`total_size_mb`, `avg_file_size_mb`) only re-round
`totalSizeBytes / totalFiles` and are not modelled; `avgRowsPerFile` is
kept as the exact ratio the source rounds to one decimal for display. -/
structure SummaryStats where
  totalFiles : Nat
  totalSizeBytes : Nat
  totalRows : Int
  uniqueListings : Nat
  earliestDate : Option Date
  latestDate : Option Date
  avgRowsPerFile : Rat
deriving DecidableEq, Repr

/-- Embeds `HealthMonitor.calculate_summary_stats` (health.py lines
100-163). -/
def calculateSummaryStats (files : List FileInfo) : SummaryStats :=
  if files.isEmpty then
    { totalFiles := 0, totalSizeBytes := 0, totalRows := 0,
      uniqueListings := 0, earliestDate := none, latestDate := none,
      avgRowsPerFile := 0 }
  else
    let validRowCounts := (files.filter (fun f => 0 < f.rowCount)).map
      (fun f => f.rowCount)
    let validDates := files.filterMap (fun f => f.date)
    let sortedDates := sortDates validDates
    let dateRange : Option Date × Option Date :=
      match sortedDates with
      | [] => (none, none)
      | d :: rest => (some d, some (List.getLastD rest d))
    { totalFiles := files.length
      totalSizeBytes := (files.map (fun f => f.sizeBytes)).sum
      totalRows := validRowCounts.sum
      uniqueListings :=
        ((files.map (fun f => f.listingId)).filter (fun s => s ≠ "unknown")).dedup.length
      earliestDate := dateRange.1
      latestDate := dateRange.2
      avgRowsPerFile :=
        if validRowCounts.isEmpty then 0
        else (validRowCounts.sum : Rat) / (validRowCounts.length : Rat) }

/-! ### Freshness (health.py `check_data_freshness`) -/

/-- Freshness dictionary.  `totalGaps = none` models the two early-return
dictionaries, which carry no `total_gaps` key. -/
structure Freshness where
  hasData : Bool
  latestDate : Option String
  daysSinceLatest : Option Int
  missingRecentDates : List String
  dataGaps : List String
  totalGaps : Option Nat
deriving DecidableEq, Repr

/-- The gap-collection `while current_date <= end_date` loop (health.py
lines 222-226).  `fuel` bounds the iteration count; the caller passes the
exact day span, which on valid dates is the number of iterations of the
source's unbounded loop. -/
def gapsFrom (present : List Date) (last : Date) : Nat → Date → List Date
  | 0, _ => []
  | Nat.succ fuel, cur =>
    if DateLe cur last then
      (if cur ∈ present then [] else [cur]) ++ gapsFrom present last fuel (nextDay cur)
    else []

/-- Embeds `HealthMonitor.check_data_freshness` (health.py lines
165-237).  `today` stands for `datetime.now().date()`. -/
def checkDataFreshness (files : List FileInfo) (today : Date) : Freshness :=
  let dateObjects := (files.filterMap (fun f => f.date)).dedup
  if dateObjects.isEmpty then
    { hasData := false, latestDate := none, daysSinceLatest := none,
      missingRecentDates := [], dataGaps := [], totalGaps := none }
  else
    let sorted := sortDates dateObjects
    let latest := List.getLastD sorted ⟨0, 0, 0⟩
    let daysSince : Int := (today.toOrdinal : Int) - (latest.toOrdinal : Int)
    let missingRecent :=
      (((List.range 7).map (fun i => subDays today (i + 1))).filter
        (fun d => d ∉ dateObjects)).map formatDate
    let gaps :=
      if 1 < dateObjects.length then
        let first := sorted.headD ⟨0, 0, 0⟩
        gapsFrom dateObjects latest (latest.toOrdinal + 1 - first.toOrdinal) first
      else []
    { hasData := true
      latestDate := some (formatDate latest)
      daysSinceLatest := some daysSince
      missingRecentDates := missingRecent
      dataGaps := (gaps.map formatDate).take 10
      totalGaps := some gaps.length }

/-! ### Health report (health.py `generate_report`) -/

/-- Python truthiness of an optional integer (`None` and `0` are falsy). -/
def pyTruthyOptInt : Option Int → Bool
  | none => false
  | some v => v != 0

/-- The health report (the `system_info` block and the
`listing_coverage` sub-report are environment data and are not referenced
by any claim; they are omitted). -/
structure Report where
  healthStatus : String
  issues : List String
  summary : SummaryStats
  dataFreshness : Freshness
  filesSample : List FileInfo
deriving DecidableEq, Repr

/-- Embeds `HealthMonitor.generate_report` (health.py lines 310-363)
including its `if`/`elif` status-classification chain (lines 336-348). -/
def generateReport (rawFiles : List RawFile) (today : Date) : Report :=
  let filesInfo := scanDataFiles rawFiles
  let summary := calculateSummaryStats filesInfo
  let freshness := checkDataFreshness filesInfo today
  let statusIssues : String × List String :=
    if summary.totalFiles = 0 then ("critical", ["No data files found"])
    else if pyTruthyOptInt freshness.daysSinceLatest
        && decide (2 < freshness.daysSinceLatest.getD 0) then
      ("warning",
       ["Data is " ++ toString (freshness.daysSinceLatest.getD 0) ++ " days old"])
    else if 3 < freshness.missingRecentDates.length then
      ("warning", ["Multiple recent dates missing"])
    else ("healthy", [])
  { healthStatus := statusIssues.1, issues := statusIssues.2,
    summary := summary, dataFreshness := freshness,
    filesSample := filesInfo.take 5 }

/-! ### Wheelhouse API client (wheelhouse.py)

The HTTP transport is abstracted to the sequence of responses the server
returns on successive attempts (the tests mock exactly such a sequence);
`time.sleep` is recorded instead of performed. -/

/-- The client-level error taxonomy: `WheelhouseRateLimitError` and its
base `WheelhouseAPIError`. -/
inductive WhError where
  | rateLimited (msg : String)
  | apiError (msg : String)
deriving DecidableEq, Repr

/-- An HTTP response: status code, `Retry-After` header, whether the body
parses as JSON, its `error` member if present, and the raw body text. -/
structure HttpResponse where
  statusCode : Nat
  retryAfter : Option String
  bodyParses : Bool
  errorField : Option String
  body : String
deriving DecidableEq, Repr

/-- The response-handling body of `_make_request` (wheelhouse.py lines
115-143): 429 raises the distinct rate-limit error carrying the
`Retry-After` value (default "60"), any other status >= 400 raises the
generic API error with the status and extracted message, anything else is
returned. -/
def handleResponse (r : HttpResponse) : Except WhError HttpResponse :=
  if r.statusCode = 429 then
    Except.error (WhError.rateLimited
      ("Rate limited. Retry after " ++ r.retryAfter.getD "60" ++ " seconds"))
  else if 400 ≤ r.statusCode then
    Except.error (WhError.apiError
      ("API request failed with status " ++ toString r.statusCode ++
        (if r.bodyParses then
          (match r.errorField with
           | some e => ": " ++ e
           | none => "")
         else ": " ++ r.body.take 200)))
  else Except.ok r

/-- `stop_after_attempt(5)` of the retry decorator. -/
def rateLimitMaxAttempts : Nat := 5

/-- Models tenacity `wait_exponential(multiplier=1, min=1, max=60)`: the
sleep after failed attempt number `attempt`, clamped to [1, 60] seconds. -/
def waitExpSeconds (attempt : Nat) : Nat :=
  max 1 (min (2 ^ (attempt - 1)) 60)

/-- `retry_if_exception_type(WheelhouseRateLimitError)`. -/
def isRateLimited : WhError → Bool
  | WhError.rateLimited _ => true
  | WhError.apiError _ => false

/-- The retry driver around `_make_request` (the
`@retry(retry=retry_if_exception_type(WheelhouseRateLimitError),
stop=stop_after_attempt(5), wait=wait_exponential(...), reraise=True)`
decorator, wheelhouse.py lines 82-87): attempt `attempt` consumes the next
response; only the rate-limit error is retried, at most 5 attempts run in
total, the sleeps between attempts are returned alongside the result, and
on exhaustion the last raised error is re-raised (`reraise=True`).  The
empty-list fallback is unreachable when a response is supplied for every
attempt. -/
def makeRequestGo : List HttpResponse → Nat → Except WhError HttpResponse × List Nat
  | [], _ => (Except.error (WhError.apiError "Request failed: no response"), [])
  | r :: rest, attempt =>
    match handleResponse r with
    | Except.ok resp => (Except.ok resp, [])
    | Except.error e =>
      if isRateLimited e && attempt < rateLimitMaxAttempts then
        let res := makeRequestGo rest (attempt + 1)
        (res.1, waitExpSeconds attempt :: res.2)
      else (Except.error e, [])

/-- `_make_request` under its retry decorator, fed the per-attempt
response sequence. -/
def makeRequest (responses : List HttpResponse) :
    Except WhError HttpResponse × List Nat :=
  makeRequestGo responses 1

/-! ### `get_listings` query parameters (wheelhouse.py lines 149-183) -/

/-- A query-parameter value. -/
inductive PValue where
  | str (s : String)
  | num (n : Int)
deriving DecidableEq, Repr

/-- Python `dict[k] = v` merge step used by `params.update(filters)`:
overwrite in place if the key exists, else append. -/
def dictSet (d : List (String × PValue)) (k : String) (v : PValue) :
    List (String × PValue) :=
  if d.any (fun p => p.1 = k) then
    d.map (fun p => if p.1 = k then (k, v) else p)
  else d ++ [(k, v)]

/-- Python `dict[k]` lookup (first binding; keys are unique by
construction). -/
def dictGet (d : List (String × PValue)) (k : String) : Option PValue :=
  (d.find? (fun p => p.1 = k)).map (fun p => p.2)

/-- The `params` dictionary `get_listings` sends: the requested limit is
capped with `min(limit, 100)` and then `params.update(filters)` is
applied. -/
def getListingsParams (date : String) (limit offset : Int)
    (filters : List (String × PValue)) : List (String × PValue) :=
  let params := [("date", PValue.str date),
                 ("limit", PValue.num (min limit 100)),
                 ("offset", PValue.num offset)]
  filters.foldl (fun d p => dictSet d p.1 p.2) params

/-! ## Claim theorems -/

/-! ### C1: day-range processing -/

/-- C1 (code bug): the claim says every calendar day in `[start, end]` is
processed exactly once and the summary records per-date outcomes.  The
code advances the date with `current_dt.replace(day=current_dt.day + 1)`,
which raises `ValueError` at every month end.  At the failing input
`start = end = 2025-01-31` the day itself processes fine, yet the whole
range call aborts with `ValueError` instead of returning a summary. -/
theorem processDateRange_month_end_value_error :
    processDateRange (fun _ => Except.ok ⟨5, 3⟩) ⟨2025, 1, 31⟩ ⟨2025, 1, 31⟩
      = Except.error "ValueError: day is out of range for month" := rfl

/-! ### C3: transform on empty input -/

/-- C3 (counterexample): contrary to the claim, `transform([])` does NOT
contain the two processing-metadata columns: the empty-input early return
(etl.py line 94) fires before `etl_processed_at`/`etl_source` are added
(lines 135-136). -/
theorem transform_empty_no_metadata_columns :
    ¬ ("etl_processed_at" ∈ (transformListingData []).columns ∧
       "etl_source" ∈ (transformListingData []).columns) := by
  decide

/-- C3 (amended): `transform([])` yields zero rows and exactly the
21-column canonical data schema; the two processing-metadata columns are
absent on empty input (they are added only on the non-empty path). -/
theorem transform_empty_schema :
    (transformListingData []).columns = emptySchemaColumns ∧
    (transformListingData []).rows = 0 ∧
    "etl_processed_at" ∉ (transformListingData []).columns ∧
    "etl_source" ∉ (transformListingData []).columns := by
  refine ⟨rfl, rfl, ?_, ?_⟩ <;> decide

/-! ### C10: page-size capping in `get_listings` -/

/-- C10 (counterexample): the claim says the `limit` parameter sent is
always `min(requested, 100)`; but `params.update(filters)` runs after the
capping, so a caller-supplied `filters` entry with key `"limit"`
overwrites the capped value. -/
theorem getListings_limit_filters_override :
    dictGet (getListingsParams "2025-01-01" 50 0 [("limit", PValue.num 500)])
        "limit" = some (PValue.num 500) ∧
    (some (PValue.num 500) : Option PValue)
      ≠ some (PValue.num (min (50 : Int) 100)) := by
  refine ⟨rfl, ?_⟩
  decide

theorem dictGet_map_overwrite_ne (d : List (String × PValue)) (k k2 : String)
    (v : PValue) (h : k2 ≠ k) :
    dictGet (d.map (fun p => if p.1 = k2 then (k2, v) else p)) k = dictGet d k := by
  induction d with
  | nil => rfl
  | cons p rest ih =>
    rw [List.map_cons]
    by_cases hp : p.1 = k2
    · rw [if_pos hp]
      unfold dictGet
      rw [List.find?_cons_of_neg _ (by simp [h]),
        List.find?_cons_of_neg _ (by simp [hp, h])]
      exact ih
    · rw [if_neg hp]
      by_cases hpk : p.1 = k
      · unfold dictGet
        rw [List.find?_cons_of_pos _ (by simp [hpk]),
          List.find?_cons_of_pos _ (by simp [hpk])]
      · unfold dictGet
        rw [List.find?_cons_of_neg _ (by simp [hpk]),
          List.find?_cons_of_neg _ (by simp [hpk])]
        exact ih

theorem dictGet_append_ne (d : List (String × PValue)) (k k2 : String)
    (v : PValue) (h : k2 ≠ k) :
    dictGet (d ++ [(k2, v)]) k = dictGet d k := by
  induction d with
  | nil =>
    unfold dictGet
    rw [List.nil_append, List.find?_cons_of_neg _ (by simp [h])]
  | cons p rest ih =>
    rw [List.cons_append]
    by_cases hpk : p.1 = k
    · unfold dictGet
      rw [List.find?_cons_of_pos _ (by simp [hpk]),
        List.find?_cons_of_pos _ (by simp [hpk])]
    · unfold dictGet
      rw [List.find?_cons_of_neg _ (by simp [hpk]),
        List.find?_cons_of_neg _ (by simp [hpk])]
      exact ih

theorem dictGet_dictSet_ne (d : List (String × PValue)) (k k2 : String)
    (v : PValue) (h : k2 ≠ k) :
    dictGet (dictSet d k2 v) k = dictGet d k := by
  unfold dictSet
  split
  · exact dictGet_map_overwrite_ne d k k2 v h
  · exact dictGet_append_ne d k k2 v h

theorem dictGet_foldl_dictSet_ne (filters : List (String × PValue))
    (k : String) (h : ∀ p ∈ filters, p.1 ≠ k) :
    ∀ d : List (String × PValue),
      dictGet (filters.foldl (fun d2 p => dictSet d2 p.1 p.2) d) k = dictGet d k := by
  induction filters with
  | nil => intro d; rfl
  | cons p rest ih =>
    intro d
    simp only [List.foldl_cons]
    rw [ih (fun q hq => h q (List.mem_cons_of_mem p hq))]
    exact dictGet_dictSet_ne d k p.1 p.2 (h p (List.mem_cons_self p rest))

/-- C10 (amended): as long as `filters` carries no `"limit"` key of its
own, the `limit` query parameter `get_listings` sends is
`min(requested, 100)` — any page size above 100 is silently capped. -/
theorem getListings_limit_capped (date : String) (limit offset : Int)
    (filters : List (String × PValue)) (h : ∀ p ∈ filters, p.1 ≠ "limit") :
    dictGet (getListingsParams date limit offset filters) "limit"
      = some (PValue.num (min limit 100)) := by
  unfold getListingsParams
  rw [dictGet_foldl_dictSet_ne filters "limit" h]
  rfl

/-- Witness for the amended C10 theorem at a concrete call: a request for
500 records with a non-limit filter actually sends `limit = 100`. -/
theorem getListings_limit_capped_witness :
    (∀ p ∈ [("city", PValue.str "chicago")], p.1 ≠ "limit") ∧
    dictGet (getListingsParams "2025-01-01" 500 0
        [("city", PValue.str "chicago")]) "limit"
      = some (PValue.num 100) := by
  refine ⟨by decide, ?_⟩
  have := getListings_limit_capped "2025-01-01" 500 0
    [("city", PValue.str "chicago")] (by decide)
  simpa using this

/-! ### C2: health-status classification -/

/-- A scan containing one readable file dated 10 days before `c2Today`:
both warning conditions hold (data 10 days old, and all 7 recent dates
missing). -/
def c2File : RawFile :=
  ⟨["raw", "L1", "2025-01-10.parquet"], some ⟨2025, 1, 10⟩, 100, some (5, ["a"])⟩

/-- The `datetime.now().date()` stand-in for the C2 counterexample. -/
def c2Today : Date := ⟨2025, 1, 20⟩

/-- C2 (counterexample): at `c2File`/`c2Today` both warning conditions
hold simultaneously (days-since-latest is 10 > 2, and 7 > 3 recent dates
are missing), yet the report's issues list holds ONLY the first rule's
string — the `elif` chain never evaluates the second rule, contradicting
the claim that both issue strings appear. -/
theorem generateReport_elif_single_issue :
    (pyTruthyOptInt (generateReport [c2File] c2Today).dataFreshness.daysSinceLatest
      && decide
        (2 < (generateReport [c2File] c2Today).dataFreshness.daysSinceLatest.getD 0))
      = true ∧
    3 < (generateReport [c2File] c2Today).dataFreshness.missingRecentDates.length ∧
    (generateReport [c2File] c2Today).issues = ["Data is 10 days old"] ∧
    "Multiple recent dates missing" ∉ (generateReport [c2File] c2Today).issues := by
  refine ⟨by decide, by decide, by decide, by decide⟩

/-- The ordered status rule table, read off the amended claim: condition,
status, issue string. -/
def statusRules (totalFiles : Nat) (daysSince : Option Int)
    (missingRecentCount : Nat) : List (Bool × String × String) :=
  [(decide (totalFiles = 0), "critical", "No data files found"),
   (pyTruthyOptInt daysSince && decide (2 < daysSince.getD 0), "warning",
     "Data is " ++ toString (daysSince.getD 0) ++ " days old"),
   (decide (3 < missingRecentCount), "warning", "Multiple recent dates missing")]

/-- First-matching-rule semantics: the first rule whose condition holds
determines the status AND contributes the only issue string; no rule
matching yields a healthy report with no issues. -/
def firstMatchStatus : List (Bool × String × String) → String × List String
  | [] => ("healthy", [])
  | (c, s, i) :: rest => if c then (s, [i]) else firstMatchStatus rest

/-- C2 (amended): `generate_report` classifies by the first matching rule
in the claimed order (zero files → critical; days-since-latest truthy and
greater than 2 → warning; more than 3 missing-recent-dates → warning;
otherwise healthy), and — because the rules form an `if`/`elif` chain —
ONLY the first matching rule's human-readable issue string is appended:
the issues list never holds more than one entry, even when several warning
conditions hold simultaneously. -/
theorem generateReport_first_match (rawFiles : List RawFile) (today : Date) :
    ((generateReport rawFiles today).healthStatus,
      (generateReport rawFiles today).issues)
      = firstMatchStatus (statusRules
          (calculateSummaryStats (scanDataFiles rawFiles)).totalFiles
          (checkDataFreshness (scanDataFiles rawFiles) today).daysSinceLatest
          ((checkDataFreshness (scanDataFiles rawFiles) today).missingRecentDates.length)) := by
  by_cases h1 : (calculateSummaryStats (scanDataFiles rawFiles)).totalFiles = 0
  · simp [generateReport, statusRules, firstMatchStatus, h1]
  · by_cases h2 : pyTruthyOptInt
        (checkDataFreshness (scanDataFiles rawFiles) today).daysSinceLatest = true
        ∧ 2 < (checkDataFreshness (scanDataFiles rawFiles) today).daysSinceLatest.getD 0
    · simp [generateReport, statusRules, firstMatchStatus, h1, h2]
    · by_cases h3 : 3 < (checkDataFreshness
          (scanDataFiles rawFiles) today).missingRecentDates.length
      · simp [generateReport, statusRules, firstMatchStatus, h1, h2, h3]
      · simp [generateReport, statusRules, firstMatchStatus, h1, h2, h3]

/-! ### C4: summary statistics -/

/-- A readable file with zero rows. -/
def c4FileZero : FileInfo := ⟨"raw/L1/2025-01-01.parquet", "L1",
  some ⟨2025, 1, 1⟩, 10, 0, 1, ["c"]⟩

/-- A readable file with ten rows. -/
def c4FileTen : FileInfo := ⟨"raw/L2/2025-01-02.parquet", "L2",
  some ⟨2025, 1, 2⟩, 10, 10, 1, ["c"]⟩

/-- C4 (counterexample): the claim says a readable zero-row file counts
toward the average's denominator, which would give (0+10)/2 = 5 here; the
code filters `row_count > 0` (strictly), so the zero-row file is excluded
and the average is 10. -/
theorem calculateSummaryStats_avg_excludes_zero :
    (calculateSummaryStats [c4FileZero, c4FileTen]).avgRowsPerFile = 10 ∧
    (calculateSummaryStats [c4FileZero, c4FileTen]).avgRowsPerFile
      ≠ ((0 : Rat) + 10) / 2 := by
  have hv : (calculateSummaryStats [c4FileZero, c4FileTen]).avgRowsPerFile = 10 := by
    have h1 : ([c4FileZero, c4FileTen].filter (fun f => 0 < f.rowCount)).map
        (fun f => f.rowCount) = [10] := by decide
    unfold calculateSummaryStats
    rw [if_neg (by decide)]
    simp only [h1]
    norm_num
  refine ⟨hv, ?_⟩
  rw [hv]
  norm_num

theorem sum_filter_pos_eq_sum_filter_nonneg (files : List FileInfo) :
    ((files.filter (fun f => 0 < f.rowCount)).map (fun f => f.rowCount)).sum
      = ((files.filter (fun f => 0 ≤ f.rowCount)).map (fun f => f.rowCount)).sum := by
  induction files with
  | nil => rfl
  | cons f rest ih =>
    by_cases hpos : 0 < f.rowCount
    · rw [List.filter_cons_of_pos (by simpa using hpos),
        List.filter_cons_of_pos (by simp; omega)]
      simp [ih]
    · by_cases hz : f.rowCount = 0
      · rw [List.filter_cons_of_neg (by simpa using hpos),
          List.filter_cons_of_pos (by simp; omega)]
        simp [ih, hz]
      · rw [List.filter_cons_of_neg (by simpa using hpos),
          List.filter_cons_of_neg (by simp; omega)]
        exact ih

/-- C4 (amended): `total_rows` does equal the sum of the row counts over
the records with non-negative row count (zero-row records contribute
nothing to the sum, so the strict `> 0` filter is harmless there), but
`avg_rows_per_file` averages over exactly the records with STRICTLY
POSITIVE row count: a readable zero-row file is excluded from the
denominator. -/
theorem calculateSummaryStats_rows_avg (files : List FileInfo)
    (h : files.filter (fun f => 0 < f.rowCount) ≠ []) :
    (calculateSummaryStats files).totalRows
      = ((files.filter (fun f => 0 ≤ f.rowCount)).map (fun f => f.rowCount)).sum ∧
    (calculateSummaryStats files).avgRowsPerFile
        * ((files.filter (fun f => 0 < f.rowCount)).length : Rat)
      = ((((files.filter (fun f => 0 < f.rowCount)).map
          (fun f => f.rowCount)).sum : Int) : Rat) := by
  have hne : ¬ files.isEmpty := by
    cases files with
    | nil => simp at h
    | cons f rest => simp
  have hvne : ¬ ((files.filter (fun f => 0 < f.rowCount)).map
      (fun f => f.rowCount)).isEmpty := by
    simpa [List.isEmpty_iff] using h
  constructor
  · unfold calculateSummaryStats
    rw [if_neg hne]
    exact sum_filter_pos_eq_sum_filter_nonneg files
  · unfold calculateSummaryStats
    rw [if_neg hne]
    simp only
    rw [if_neg hvne]
    have hlen : (((files.filter (fun f => 0 < f.rowCount)).map
        (fun f => f.rowCount)).length : Rat)
        = ((files.filter (fun f => 0 < f.rowCount)).length : Rat) := by
      rw [List.length_map]
    have hlz : ((files.filter (fun f => 0 < f.rowCount)).length : Rat) ≠ 0 := by
      have h0 : (files.filter (fun f => 0 < f.rowCount)).length ≠ 0 := by
        simpa [List.length_eq_zero] using h
      exact_mod_cast h0
    rw [hlen]
    exact div_mul_cancel₀ _ hlz

/-- Witness for the amended C4 theorem at the two-file scan: the zero-row
file is in the scan, the total is 10, and the average is taken over the
single positive-row file. -/
theorem calculateSummaryStats_rows_avg_witness :
    ([c4FileZero, c4FileTen].filter (fun f => 0 < f.rowCount) ≠ []) ∧
    (calculateSummaryStats [c4FileZero, c4FileTen]).totalRows = 10 ∧
    (calculateSummaryStats [c4FileZero, c4FileTen]).avgRowsPerFile
        * (([c4FileZero, c4FileTen].filter (fun f => 0 < f.rowCount)).length : Rat)
      = (((([c4FileZero, c4FileTen].filter
            (fun f => 0 < f.rowCount)).map (fun f => f.rowCount)).sum : Int) : Rat) := by
  refine ⟨by decide, ?_, (calculateSummaryStats_rows_avg _ (by decide)).2⟩
  rw [(calculateSummaryStats_rows_avg [c4FileZero, c4FileTen] (by decide)).1]
  decide

/-! ### C9: unreadable files in the health scan -/

theorem scanDataFiles_length (fs : List RawFile) :
    (scanDataFiles fs).length = fs.length := by
  unfold scanDataFiles
  exact List.length_map fs scanFile

/-- C9: every partition file — readable or not — yields exactly one
FileRecord at its own position in the scan result; an unreadable file is
recorded with the `-1` row-count sentinel and an empty column list instead
of being dropped, and a readable file keeps its true row count and
columns (so unreadable files never hide their readable siblings). -/
theorem scanDataFiles_total (fs : List RawFile) (i : Nat) (h : i < fs.length) :
    (scanDataFiles fs).length = fs.length ∧
    ((fs.get ⟨i, h⟩).content = none →
      ((scanDataFiles fs).get ⟨i, by rw [scanDataFiles_length]; exact h⟩).rowCount
          = -1 ∧
      ((scanDataFiles fs).get ⟨i, by rw [scanDataFiles_length]; exact h⟩).columns
          = []) ∧
    (∀ (n : Nat) (cols : List String),
      (fs.get ⟨i, h⟩).content = some (n, cols) →
      ((scanDataFiles fs).get ⟨i, by rw [scanDataFiles_length]; exact h⟩).rowCount
          = (n : Int) ∧
      ((scanDataFiles fs).get ⟨i, by rw [scanDataFiles_length]; exact h⟩).columns
          = cols) := by
  have hget : ∀ (hb : i < (scanDataFiles fs).length),
      (scanDataFiles fs).get ⟨i, hb⟩ = scanFile (fs.get ⟨i, h⟩) := by
    intro hb
    unfold scanDataFiles
    exact List.get_map scanFile
  refine ⟨scanDataFiles_length fs, ?_, ?_⟩
  · intro hc
    rw [hget]
    unfold scanFile
    rw [hc]
    exact ⟨rfl, rfl⟩
  · intro n cols hc
    rw [hget]
    unfold scanFile
    rw [hc]
    exact ⟨rfl, rfl⟩

/-- An unreadable file next to a readable sibling. -/
def c9Bad : RawFile := ⟨["raw", "L1", "2025-01-01.parquet"], some ⟨2025, 1, 1⟩,
  50, none⟩

/-- A readable file. -/
def c9Good : RawFile := ⟨["raw", "L2", "2025-01-02.parquet"], some ⟨2025, 1, 2⟩,
  60, some (7, ["listing_id", "price"])⟩

/-- Witness for C9 on a two-file scan with one corrupt file. -/
theorem scanDataFiles_total_witness :
    (0 : Nat) < ([c9Bad, c9Good] : List RawFile).length ∧
    (scanDataFiles [c9Bad, c9Good]).length = 2 ∧
    (([c9Bad, c9Good].get ⟨0, by decide⟩).content = none →
      ((scanDataFiles [c9Bad, c9Good]).get
          ⟨0, by rw [scanDataFiles_length]; decide⟩).rowCount = -1 ∧
      ((scanDataFiles [c9Bad, c9Good]).get
          ⟨0, by rw [scanDataFiles_length]; decide⟩).columns = []) := by
  refine ⟨by decide, ?_, ?_⟩
  · exact scanDataFiles_length [c9Bad, c9Good]
  · intro hc
    have hmain := (scanDataFiles_total [c9Bad, c9Good] 0 (by decide)).2.1 hc
    exact hmain

/-! ### C5: rate-limit retry -/

/-- C5: (i) a 429 response followed by a 200 returns the 200 payload to
the caller after exactly one recorded sleep; (ii) across any response
sequence at most 4 sleeps separate the at most 5 attempts, each sleep
being between 1 and 60 seconds (bounded exponential backoff); (iii) five
straight 429s exhaust the attempts and re-raise the rate-limited
condition built from the last response; (iv) a non-429 error status is
never retried: it raises the generic API error immediately with no
sleeps. -/
theorem makeRequest_retry_spec :
    (∀ r1 r2 : HttpResponse, r1.statusCode = 429 → r2.statusCode = 200 →
      makeRequest [r1, r2] = (Except.ok r2, [waitExpSeconds 1])) ∧
    (∀ rs : List HttpResponse,
      (makeRequest rs).2.length ≤ 4 ∧
      ∀ t ∈ (makeRequest rs).2, 1 ≤ t ∧ t ≤ 60) ∧
    (∀ r1 r2 r3 r4 r5 : HttpResponse,
      r1.statusCode = 429 → r2.statusCode = 429 → r3.statusCode = 429 →
      r4.statusCode = 429 → r5.statusCode = 429 →
      (makeRequest [r1, r2, r3, r4, r5]).1
        = Except.error (WhError.rateLimited
            ("Rate limited. Retry after " ++ r5.retryAfter.getD "60"
              ++ " seconds"))) ∧
    (∀ (r : HttpResponse) (rest : List HttpResponse),
      r.statusCode ≠ 429 → 400 ≤ r.statusCode →
      ∃ m, makeRequest (r :: rest) = (Except.error (WhError.apiError m), [])) := by
  have hbound : ∀ (rs : List HttpResponse) (attempt : Nat), 1 ≤ attempt →
      (makeRequestGo rs attempt).2.length ≤ rateLimitMaxAttempts - attempt ∧
      ∀ t ∈ (makeRequestGo rs attempt).2, 1 ≤ t ∧ t ≤ 60 := by
    intro rs
    induction rs with
    | nil => intro attempt h1; exact ⟨by simp [makeRequestGo], by simp [makeRequestGo]⟩
    | cons r rest ih =>
      intro attempt h1
      unfold makeRequestGo
      cases hr : handleResponse r with
      | ok resp => exact ⟨by simp, by simp⟩
      | error e =>
        dsimp only
        by_cases hretry : (isRateLimited e
            && decide (attempt < rateLimitMaxAttempts)) = true
        · rw [if_pos hretry]
          have hlt : attempt < rateLimitMaxAttempts := by
            have := (Bool.and_eq_true _ _).mp hretry
            simpa using this.2
          obtain ⟨ihl, ihm⟩ := ih (attempt + 1) (by omega)
          constructor
          · simp only [List.length_cons]
            unfold rateLimitMaxAttempts at *
            omega
          · intro t ht
            rcases List.mem_cons.mp ht with hh | hh
            · subst hh
              unfold waitExpSeconds
              constructor
              · exact Nat.le_max_left _ _
              · have : min (2 ^ (attempt - 1)) 60 ≤ 60 := Nat.min_le_right _ _
                omega
            · exact ihm t hh
        · rw [if_neg hretry]
          exact ⟨by simp, by simp⟩
  refine ⟨?_, ?_, ?_, ?_⟩
  · intro r1 r2 h1 h2
    have e1 : handleResponse r1 = Except.error (WhError.rateLimited
        ("Rate limited. Retry after " ++ r1.retryAfter.getD "60" ++ " seconds")) := by
      unfold handleResponse; rw [if_pos h1]
    have e2 : handleResponse r2 = Except.ok r2 := by
      unfold handleResponse; rw [if_neg (by omega), if_neg (by omega)]
    unfold makeRequest
    simp [makeRequestGo, e1, e2, isRateLimited, rateLimitMaxAttempts]
  · intro rs
    obtain ⟨hl, hm⟩ := hbound rs 1 (Nat.le_refl 1)
    exact ⟨by simpa [rateLimitMaxAttempts] using hl, hm⟩
  · intro r1 r2 r3 r4 r5 h1 h2 h3 h4 h5
    have e1 : handleResponse r1 = Except.error (WhError.rateLimited
        ("Rate limited. Retry after " ++ r1.retryAfter.getD "60" ++ " seconds")) := by
      unfold handleResponse; rw [if_pos h1]
    have e2 : handleResponse r2 = Except.error (WhError.rateLimited
        ("Rate limited. Retry after " ++ r2.retryAfter.getD "60" ++ " seconds")) := by
      unfold handleResponse; rw [if_pos h2]
    have e3 : handleResponse r3 = Except.error (WhError.rateLimited
        ("Rate limited. Retry after " ++ r3.retryAfter.getD "60" ++ " seconds")) := by
      unfold handleResponse; rw [if_pos h3]
    have e4 : handleResponse r4 = Except.error (WhError.rateLimited
        ("Rate limited. Retry after " ++ r4.retryAfter.getD "60" ++ " seconds")) := by
      unfold handleResponse; rw [if_pos h4]
    have e5 : handleResponse r5 = Except.error (WhError.rateLimited
        ("Rate limited. Retry after " ++ r5.retryAfter.getD "60" ++ " seconds")) := by
      unfold handleResponse; rw [if_pos h5]
    unfold makeRequest
    simp [makeRequestGo, e1, e2, e3, e4, e5, isRateLimited, rateLimitMaxAttempts]
  · intro r rest hne h400
    refine ⟨"API request failed with status " ++ toString r.statusCode ++
      (if r.bodyParses then
        (match r.errorField with
         | some e => ": " ++ e
         | none => "")
       else ": " ++ r.body.take 200), ?_⟩
    have e1 : handleResponse r = Except.error (WhError.apiError
        ("API request failed with status " ++ toString r.statusCode ++
          (if r.bodyParses then
            (match r.errorField with
             | some e => ": " ++ e
             | none => "")
           else ": " ++ r.body.take 200))) := by
      unfold handleResponse; rw [if_neg hne, if_pos h400]
    unfold makeRequest
    simp [makeRequestGo, e1, isRateLimited]

/-- A concrete 429 response. -/
def resp429 : HttpResponse := ⟨429, some "30", true, none, ""⟩

/-- A concrete 200 response. -/
def resp200 : HttpResponse := ⟨200, none, true, none, "payload"⟩

/-- Witness for C5: the 429-then-200 sequence yields the 200 payload with
one bounded sleep, and five 429s re-raise the rate-limited condition. -/
theorem makeRequest_retry_spec_witness :
    resp429.statusCode = 429 ∧ resp200.statusCode = 200 ∧
    makeRequest [resp429, resp200] = (Except.ok resp200, [waitExpSeconds 1]) ∧
    (makeRequest [resp429, resp429, resp429, resp429, resp429]).1
      = Except.error (WhError.rateLimited "Rate limited. Retry after 30 seconds") := by
  refine ⟨rfl, rfl, makeRequest_retry_spec.1 resp429 resp200 rfl rfl, ?_⟩
  have := makeRequest_retry_spec.2.2.1 resp429 resp429 resp429 resp429 resp429
    rfl rfl rfl rfl rfl
  simpa [resp429] using this

/-! ### C6: grouping by entity id -/

theorem groupInsert_keys (acc : List (String × List Listing)) (key : String)
    (l : Listing) :
    (groupInsert acc key l).map Prod.fst
      = if key ∈ acc.map Prod.fst then acc.map Prod.fst
        else acc.map Prod.fst ++ [key] := by
  induction acc with
  | nil => simp [groupInsert]
  | cons p rest ih =>
    obtain ⟨k, ls⟩ := p
    by_cases hk : k = key
    · subst hk
      simp [groupInsert]
    · simp only [groupInsert, if_neg hk, List.map_cons]
      rw [ih]
      by_cases hmem : key ∈ rest.map Prod.fst
      · simp [hmem, hk]
      · have hnm : key ∉ (k, ls).1 :: rest.map Prod.fst := by
          simp [hmem, Ne.symm hk]
        simp only [List.map_cons] at hnm ⊢
        rw [if_neg hmem, if_neg (by simpa using hnm), List.cons_append]

theorem groupInsert_sum (acc : List (String × List Listing)) (key : String)
    (l : Listing) :
    ((groupInsert acc key l).map (fun p => p.2.length)).sum
      = (acc.map (fun p => p.2.length)).sum + 1 := by
  induction acc with
  | nil => simp [groupInsert]
  | cons p rest ih =>
    obtain ⟨k, ls⟩ := p
    by_cases hk : k = key
    · subst hk
      simp [groupInsert]
      omega
    · simp only [groupInsert, if_neg hk, List.map_cons, List.sum_cons, ih]
      omega

theorem groupInsert_values (acc : List (String × List Listing)) (key : String)
    (l : Listing) (hnd : (acc.map Prod.fst).Nodup) :
    ∀ q ∈ groupInsert acc key l,
      (q.1 ≠ key ∧ q ∈ acc) ∨
      (q.1 = key ∧
        ((∃ gs, (key, gs) ∈ acc ∧ q = (key, gs ++ [l])) ∨
         (key ∉ acc.map Prod.fst ∧ q = (key, [l])))) := by
  induction acc with
  | nil =>
    intro q hq
    simp only [groupInsert, List.mem_singleton] at hq
    subst hq
    exact Or.inr ⟨rfl, Or.inr ⟨by simp, rfl⟩⟩
  | cons p rest ih =>
    obtain ⟨k, ls⟩ := p
    simp only [List.map_cons, List.nodup_cons] at hnd
    obtain ⟨hknr, hndr⟩ := hnd
    intro q hq
    by_cases hk : k = key
    · rw [hk] at hknr
      have hred : groupInsert ((k, ls) :: rest) key l
          = (key, ls ++ [l]) :: rest := by
        show (if k = key then (k, ls ++ [l]) :: rest
              else (k, ls) :: groupInsert rest key l)
            = (key, ls ++ [l]) :: rest
        rw [if_pos hk, hk]
      rw [hred, List.mem_cons] at hq
      rcases hq with hq | hq
      · subst hq
        refine Or.inr ⟨rfl, Or.inl ⟨ls, ?_, rfl⟩⟩
        rw [← hk]
        exact List.mem_cons_self _ _
      · have hq1 : q.1 ∈ rest.map Prod.fst := List.mem_map_of_mem Prod.fst hq
        refine Or.inl ⟨?_, List.mem_cons_of_mem _ hq⟩
        intro hcontra
        rw [hcontra] at hq1
        exact hknr hq1
    · have hred : groupInsert ((k, ls) :: rest) key l
          = (k, ls) :: groupInsert rest key l := by
        show (if k = key then (k, ls ++ [l]) :: rest
              else (k, ls) :: groupInsert rest key l)
            = (k, ls) :: groupInsert rest key l
        rw [if_neg hk]
      rw [hred, List.mem_cons] at hq
      rcases hq with hq | hq
      · subst hq
        exact Or.inl ⟨by simpa using hk, List.mem_cons_self _ _⟩
      · rcases ih hndr q hq with ⟨hne, hmem⟩ | ⟨heq, hrest⟩
        · exact Or.inl ⟨hne, List.mem_cons_of_mem _ hmem⟩
        · refine Or.inr ⟨heq, ?_⟩
          rcases hrest with ⟨gs, hgs, hqe⟩ | ⟨hnm, hqe⟩
          · exact Or.inl ⟨gs, List.mem_cons_of_mem _ hgs, hqe⟩
          · refine Or.inr ⟨?_, hqe⟩
            simp only [List.map_cons, List.mem_cons]
            rintro (h1 | h2)
            · exact hk h1.symm
            · exact hnm h2

theorem groupFold_invariant (rest : List Listing) :
    ∀ (processed : List Listing) (acc : List (String × List Listing)),
    (acc.map Prod.fst).Nodup →
    (∀ q ∈ acc, q.2 = processed.filter (fun x => resolvedId x = q.1)) →
    (∀ x ∈ processed, resolvedId x ∈ acc.map Prod.fst) →
    (∀ k ∈ acc.map Prod.fst, k ∈ processed.map resolvedId) →
    ((acc.map (fun p => p.2.length)).sum = processed.length) →
    (((List.foldl (fun a x => groupInsert a (resolvedId x) x) acc rest).map
        Prod.fst).Nodup ∧
     (∀ q ∈ List.foldl (fun a x => groupInsert a (resolvedId x) x) acc rest,
        q.2 = (processed ++ rest).filter (fun x => resolvedId x = q.1)) ∧
     (∀ x ∈ processed ++ rest, resolvedId x
        ∈ (List.foldl (fun a x => groupInsert a (resolvedId x) x) acc rest).map
            Prod.fst) ∧
     (∀ k ∈ (List.foldl (fun a x => groupInsert a (resolvedId x) x) acc rest).map
          Prod.fst, k ∈ (processed ++ rest).map resolvedId) ∧
     (((List.foldl (fun a x => groupInsert a (resolvedId x) x) acc rest).map
          (fun p => p.2.length)).sum = (processed ++ rest).length)) := by
  induction rest with
  | nil =>
    intro processed acc h1 h2 h3 h4 h5
    simp only [List.foldl_nil, List.append_nil]
    exact ⟨h1, h2, h3, h4, h5⟩
  | cons x rest ih =>
    intro processed acc h1 h2 h3 h4 h5
    have hassoc : (processed ++ [x]) ++ rest = processed ++ x :: rest := by
      simp
    have hkeys := groupInsert_keys acc (resolvedId x) x
    have hnd2 : ((groupInsert acc (resolvedId x) x).map Prod.fst).Nodup := by
      rw [hkeys]
      by_cases hmem : resolvedId x ∈ acc.map Prod.fst
      · rw [if_pos hmem]; exact h1
      · rw [if_neg hmem]
        simp [List.nodup_append, h1, hmem]
    have hv2 : ∀ q ∈ groupInsert acc (resolvedId x) x,
        q.2 = (processed ++ [x]).filter (fun z => resolvedId z = q.1) := by
      intro q hq
      rcases groupInsert_values acc (resolvedId x) x h1 q hq with
        ⟨hne, hmem⟩ | ⟨heq, hcase⟩
      · rw [List.filter_append, h2 q hmem]
        have hxne : ¬ (resolvedId x = q.1) := fun hc => hne hc.symm
        have hfx : [x].filter (fun z => resolvedId z = q.1) = [] := by
          simp [hxne]
        rw [hfx, List.append_nil]
      · rcases hcase with ⟨gs, hgs, hqe⟩ | ⟨hnm, hqe⟩
        · have hgv := h2 (resolvedId x, gs) hgs
          simp only at hgv
          rw [hqe]
          simp only
          rw [List.filter_append, ← hgv]
          congr 1
          simp
        · have hpf : processed.filter
              (fun z => resolvedId z = resolvedId x) = [] := by
            rw [List.filter_eq_nil_iff]
            intro a ha
            simp only [decide_eq_true_eq]
            intro hcontra
            exact hnm (hcontra ▸ h3 a ha)
          rw [hqe]
          simp only
          rw [List.filter_append, hpf]
          simp
    have hc2 : ∀ z ∈ processed ++ [x],
        resolvedId z ∈ (groupInsert acc (resolvedId x) x).map Prod.fst := by
      intro z hz
      rw [hkeys]
      rcases List.mem_append.mp hz with hz | hz
      · by_cases hmem : resolvedId x ∈ acc.map Prod.fst
        · rw [if_pos hmem]; exact h3 z hz
        · rw [if_neg hmem]
          exact List.mem_append_left _ (h3 z hz)
      · have : z = x := by simpa using hz
        subst this
        by_cases hmem : resolvedId z ∈ acc.map Prod.fst
        · rw [if_pos hmem]; exact hmem
        · rw [if_neg hmem]; simp
    have hk2 : ∀ k ∈ (groupInsert acc (resolvedId x) x).map Prod.fst,
        k ∈ (processed ++ [x]).map resolvedId := by
      intro k hk
      rw [hkeys] at hk
      by_cases hmem : resolvedId x ∈ acc.map Prod.fst
      · rw [if_pos hmem] at hk
        rw [List.map_append]
        exact List.mem_append_left _ (h4 k hk)
      · rw [if_neg hmem] at hk
        rcases List.mem_append.mp hk with hk | hk
        · rw [List.map_append]
          exact List.mem_append_left _ (h4 k hk)
        · have : k = resolvedId x := by simpa using hk
          subst this
          simp
    have hs2 : ((groupInsert acc (resolvedId x) x).map
        (fun p => p.2.length)).sum = (processed ++ [x]).length := by
      rw [groupInsert_sum, h5]
      simp
    have := ih (processed ++ [x]) (groupInsert acc (resolvedId x) x)
      hnd2 hv2 hc2 hk2 hs2
    rw [hassoc] at this
    simpa using this

theorem groupListingsById_characterization (ls : List Listing) :
    ((groupListingsById ls).map Prod.fst).Nodup ∧
    (∀ q ∈ groupListingsById ls,
      q.2 = ls.filter (fun x => resolvedId x = q.1)) ∧
    (∀ x ∈ ls, resolvedId x ∈ (groupListingsById ls).map Prod.fst) ∧
    (∀ k ∈ (groupListingsById ls).map Prod.fst, k ∈ ls.map resolvedId) ∧
    ((groupListingsById ls).map (fun p => p.2.length)).sum = ls.length := by
  have := groupFold_invariant ls [] []
    (by simp) (by simp) (by simp) (by simp) (by simp)
  simpa [groupListingsById] using this

/-- Example records with ids A, A, B (the spec's worked example). -/
def lA : Listing := ⟨[("id", JValue.str "A"), ("name", JValue.str "first A")]⟩

/-- Second record with id A. -/
def lA2 : Listing := ⟨[("id", JValue.str "A"), ("name", JValue.str "second A")]⟩

/-- Record with id B. -/
def lB : Listing := ⟨[("id", JValue.str "B")]⟩

/-- C6: grouping N records yields exactly K groups, where K is the number
of distinct resolved entity ids (id resolved by field "id", then
"listing_id", then the "unknown" sentinel); the group sizes sum to N; and
each group holds exactly the input records bearing its id, in their
original relative order (it equals the order-preserving filter of the
input by that id). -/
theorem groupListingsById_spec (ls : List Listing) :
    (groupListingsById ls).length = ((ls.map resolvedId).dedup).length ∧
    ((groupListingsById ls).map (fun p => p.2.length)).sum = ls.length ∧
    ∀ q ∈ groupListingsById ls,
      q.2 = ls.filter (fun x => resolvedId x = q.1) := by
  obtain ⟨hnd, hval, hcomp, hsub, hsum⟩ := groupListingsById_characterization ls
  refine ⟨?_, hsum, hval⟩
  have hfin : ((groupListingsById ls).map Prod.fst).toFinset
      = (ls.map resolvedId).toFinset := by
    ext a
    simp only [List.mem_toFinset]
    constructor
    · exact hsub a
    · intro ha
      obtain ⟨x, hx, hax⟩ := List.mem_map.mp ha
      exact hax ▸ hcomp x hx
  calc (groupListingsById ls).length
      = ((groupListingsById ls).map Prod.fst).length := (List.length_map _ _).symm
    _ = ((groupListingsById ls).map Prod.fst).dedup.length := by rw [hnd.dedup]
    _ = ((groupListingsById ls).map Prod.fst).toFinset.card :=
        (List.card_toFinset _).symm
    _ = (ls.map resolvedId).toFinset.card := by rw [hfin]
    _ = (ls.map resolvedId).dedup.length := List.card_toFinset _

/-- Witness for C6 on the records A, A, B: 2 groups, sizes summing to 3,
and the A-group holds both A-records in input order. -/
theorem groupListingsById_spec_witness :
    (groupListingsById [lA, lA2, lB]).length = 2 ∧
    ((groupListingsById [lA, lA2, lB]).map (fun p => p.2.length)).sum = 3 ∧
    ("A", [lA, lA2]) ∈ groupListingsById [lA, lA2, lB] ∧
    [lA, lA2] = [lA, lA2, lB].filter (fun x => resolvedId x = "A") := by
  refine ⟨?_, (groupListingsById_spec [lA, lA2, lB]).2.1, by decide, ?_⟩
  · rw [(groupListingsById_spec [lA, lA2, lB]).1]
    decide
  · exact (groupListingsById_spec [lA, lA2, lB]).2.2 ("A", [lA, lA2]) (by decide)

/-! ### C8: dry-run day processing -/

theorem groupListingsById_values_nonempty (ls : List Listing) :
    ∀ q ∈ groupListingsById ls, q.2 ≠ [] := by
  obtain ⟨hnd, hval, hcomp, hsub, hsum⟩ := groupListingsById_characterization ls
  intro q hq
  have hq1 : q.1 ∈ (groupListingsById ls).map Prod.fst :=
    List.mem_map_of_mem _ hq
  obtain ⟨x, hx, hxid⟩ := List.mem_map.mp (hsub q.1 hq1)
  rw [hval q hq]
  intro hc
  rw [List.filter_eq_nil_iff] at hc
  exact hc x hx (by simp [hxid])

theorem transformListingData_rows (ls : List Listing) (h : ¬ ls.isEmpty) :
    (transformListingData ls).rows = ls.length := by
  unfold transformListingData
  rw [if_neg h]

theorem processGroups_fold_dry (basePath dateStr : String) :
    ∀ (groups : List (String × List Listing)),
      (∀ q ∈ groups, q.2 ≠ []) →
      ∀ st0 : List String × Nat × List String,
      groups.foldl (processGroupStep basePath dateStr true) st0
        = (st0.1 ++ groups.map (fun g => getRawDataPath basePath g.1 dateStr),
           st0.2.1, st0.2.2) := by
  intro groups
  induction groups with
  | nil => intro h st0; simp
  | cons g rest ih =>
    intro h st0
    rw [List.foldl_cons]
    have hg : g.2 ≠ [] := h g (List.mem_cons_self _ _)
    have hrows : (transformListingData g.2).rows = g.2.length :=
      transformListingData_rows _ (by simpa [List.isEmpty_iff] using hg)
    have hstep : processGroupStep basePath dateStr true st0 g
        = (st0.1 ++ [getRawDataPath basePath g.1 dateStr], st0.2.1, st0.2.2) := by
      unfold processGroupStep
      dsimp only
      rw [hrows, if_neg (by simpa [List.length_eq_zero] using hg)]
      simp
    rw [hstep, ih (fun q hq => h q (List.mem_cons_of_mem _ hq))]
    simp

/-- C8: with dry-run set, `process_date` writes nothing — the filesystem
comes back unchanged and `files_written` is 0 — while the complete would-be
partition path list is still returned, one path per entity group; at the
spec's example (records with ids A, A, B on day 2025-01-01, empty base
path) the result is `files_written = 0` with exactly the two paths
`raw/A/2025-01-01.parquet` and `raw/B/2025-01-01.parquet`. -/
theorem processDate_dry_run (basePath : String) (day : Date)
    (listings : List Listing) (fs : List String) (hday : ValidDate day) :
    ((processDate basePath day listings true fs).2 = fs ∧
     (processDate basePath day listings true fs).1.filesWritten = 0 ∧
     (processDate basePath day listings true fs).1.filePaths
       = (groupListingsById listings).map
           (fun g => getRawDataPath basePath g.1 (formatDate day))) ∧
    ((processDate "" ⟨2025, 1, 1⟩ [lA, lA2, lB] true []).1.filesWritten = 0 ∧
     (processDate "" ⟨2025, 1, 1⟩ [lA, lA2, lB] true []).1.filePaths
       = ["raw/A/2025-01-01.parquet", "raw/B/2025-01-01.parquet"] ∧
     (processDate "" ⟨2025, 1, 1⟩ [lA, lA2, lB] true []).2 = []) := by
  constructor
  · by_cases hemp : listings.isEmpty
    · have hnil : listings = [] := by
        cases listings with
        | nil => rfl
        | cons a l => simp at hemp
      subst hnil
      exact ⟨rfl, rfl, rfl⟩
    · unfold processDate
      rw [if_neg hemp]
      simp only
      unfold processGroups
      rw [processGroups_fold_dry basePath (formatDate day) _
        (groupListingsById_values_nonempty listings) ([], 0, fs)]
      exact ⟨rfl, rfl, by simp⟩
  · exact ⟨by decide, by decide, by decide⟩

/-- Witness for C8 instantiating the general dry-run statement at the
example input. -/
theorem processDate_dry_run_witness :
    ValidDate ⟨2025, 1, 1⟩ ∧
    (processDate "" ⟨2025, 1, 1⟩ [lA, lA2, lB] true []).2 = [] ∧
    (processDate "" ⟨2025, 1, 1⟩ [lA, lA2, lB] true []).1.filesWritten = 0 ∧
    (processDate "" ⟨2025, 1, 1⟩ [lA, lA2, lB] true []).1.filePaths
      = (groupListingsById [lA, lA2, lB]).map
          (fun g => getRawDataPath "" g.1 (formatDate ⟨2025, 1, 1⟩)) := by
  refine ⟨by decide, ?_⟩
  have h := (processDate_dry_run "" ⟨2025, 1, 1⟩ [lA, lA2, lB] [] (by decide)).1
  exact ⟨h.1, h.2.1, h.2.2⟩

/-! ### C7: data-gap counting -/

theorem dateLe_refl (a : Date) : DateLe a a := Or.inr rfl

theorem dateLe_char (a b : Date) :
    DateLe a b ↔ (a.year < b.year ∨ (a.year = b.year ∧
      (a.month < b.month ∨ (a.month = b.month ∧ a.day ≤ b.day)))) := by
  obtain ⟨ya, ma, da⟩ := a
  obtain ⟨yb, mb, db⟩ := b
  simp only [DateLe, DateLt, Date.mk.injEq]
  omega

theorem dateLe_total (a b : Date) : DateLe a b ∨ DateLe b a := by
  rw [dateLe_char, dateLe_char]
  omega

theorem dateLe_trans {a b c : Date} (h1 : DateLe a b) (h2 : DateLe b c) :
    DateLe a c := by
  rw [dateLe_char] at h1 h2 ⊢
  omega

theorem insertSorted_perm (d : Date) (l : List Date) :
    (insertSorted d l).Perm (d :: l) := by
  induction l with
  | nil => exact List.Perm.refl _
  | cons e rest ih =>
    unfold insertSorted
    by_cases h : DateLe d e
    · rw [if_pos h]
    · rw [if_neg h]
      exact (ih.cons e).trans (List.Perm.swap d e rest)

theorem sortDates_perm (l : List Date) : (sortDates l).Perm l := by
  induction l with
  | nil => exact List.Perm.refl _
  | cons x rest ih =>
    unfold sortDates
    simp only [List.foldr_cons]
    exact (insertSorted_perm x _).trans (ih.cons x)

theorem insertSorted_pairwise (d : Date) (l : List Date)
    (h : l.Pairwise DateLe) : (insertSorted d l).Pairwise DateLe := by
  induction l with
  | nil => simp [insertSorted]
  | cons e rest ih =>
    rw [List.pairwise_cons] at h
    obtain ⟨he, hrest⟩ := h
    unfold insertSorted
    by_cases hle : DateLe d e
    · rw [if_pos hle]
      rw [List.pairwise_cons]
      refine ⟨?_, ?_⟩
      · intro y hy
        rcases List.mem_cons.mp hy with hy | hy
        · exact hy ▸ hle
        · exact dateLe_trans hle (he y hy)
      · rw [List.pairwise_cons]
        exact ⟨he, hrest⟩
    · rw [if_neg hle]
      have hed : DateLe e d := by
        rcases dateLe_total d e with h | h
        · exact absurd h hle
        · exact h
      rw [List.pairwise_cons]
      refine ⟨?_, ih hrest⟩
      intro y hy
      have := (insertSorted_perm d rest).mem_iff.mp hy
      rcases List.mem_cons.mp this with hy2 | hy2
      · exact hy2 ▸ hed
      · exact he y hy2

theorem sortDates_pairwise (l : List Date) :
    (sortDates l).Pairwise DateLe := by
  induction l with
  | nil => simp [sortDates]
  | cons x rest ih =>
    unfold sortDates
    simp only [List.foldr_cons]
    exact insertSorted_pairwise x _ ih

theorem getLastD_mem (l : List Date) (d0 : Date) (h : l ≠ []) :
    List.getLastD l d0 ∈ l := by
  induction l generalizing d0 with
  | nil => exact absurd rfl h
  | cons a rest ih =>
    rw [List.getLastD_cons]
    cases hr : rest with
    | nil => simp
    | cons b rest2 =>
      rw [← hr]
      have := ih a (by rw [hr]; exact List.cons_ne_nil _ _)
      exact List.mem_cons_of_mem _ this

theorem headD_mem (l : List Date) (d0 : Date) (h : l ≠ []) :
    l.headD d0 ∈ l := by
  cases l with
  | nil => exact absurd rfl h
  | cons a rest => simp

theorem pairwise_headD_le (l : List Date) (d0 : Date)
    (hp : l.Pairwise DateLe) : ∀ y ∈ l, DateLe (l.headD d0) y := by
  cases l with
  | nil => intro y hy; simp at hy
  | cons a rest =>
    rw [List.pairwise_cons] at hp
    intro y hy
    rcases List.mem_cons.mp hy with hy | hy
    · exact hy ▸ dateLe_refl _
    · exact hp.1 y hy

theorem pairwise_le_getLastD (l : List Date) (d0 : Date)
    (hp : l.Pairwise DateLe) : ∀ y ∈ l, DateLe y (List.getLastD l d0) := by
  induction l generalizing d0 with
  | nil => intro y hy; simp at hy
  | cons a rest ih =>
    rw [List.pairwise_cons] at hp
    obtain ⟨ha, hrest⟩ := hp
    rw [List.getLastD_cons]
    intro y hy
    cases hr : rest with
    | nil =>
      subst hr
      have hya : y = a := by simpa using hy
      subst hya
      exact dateLe_refl _
    | cons b rest2 =>
      subst hr
      rcases List.mem_cons.mp hy with hy | hy
      · subst hy
        have hmem : List.getLastD (b :: rest2) y ∈ (b :: rest2) :=
          getLastD_mem _ _ (List.cons_ne_nil _ _)
        exact ha _ hmem
      · exact ih a hrest y hy

theorem filter_eq_singleton_length (S : List Date) (c : Date) (hnd : S.Nodup) :
    (S.filter (fun d => d = c)).length = if c ∈ S then 1 else 0 := by
  induction S with
  | nil => simp
  | cons a rest ih =>
    rw [List.nodup_cons] at hnd
    obtain ⟨hna, hndr⟩ := hnd
    by_cases hac : a = c
    · rw [List.filter_cons_of_pos (by simp [hac]),
        if_pos (by rw [← hac]; exact List.mem_cons_self _ _)]
      have hcr : c ∉ rest := by rw [← hac]; exact hna
      rw [List.length_cons, ih hndr, if_neg hcr]
    · rw [List.filter_cons_of_neg (by simp [hac]), ih hndr]
      by_cases hc : c ∈ rest
      · rw [if_pos hc, if_pos (List.mem_cons_of_mem _ hc)]
      · rw [if_neg hc, if_neg (by simp [hc, Ne.symm hac])]

theorem filter_ord_eq (S : List Date) (c : Date)
    (hvS : ∀ d ∈ S, ValidDate d) (hc : ValidDate c) :
    S.filter (fun d => d.toOrdinal = c.toOrdinal) = S.filter (fun d => d = c) := by
  apply List.filter_congr
  intro d hd
  simp only [decide_eq_decide]
  constructor
  · intro h
    exact date_eq_of_toOrdinal_eq (hvS d hd) hc h
  · intro h
    rw [h]

theorem window_split (S : List Date) (c L : Nat) (hcl : c ≤ L) :
    (S.filter (fun d => c ≤ d.toOrdinal ∧ d.toOrdinal ≤ L)).length
      = (S.filter (fun d => d.toOrdinal = c)).length
        + (S.filter (fun d => c + 1 ≤ d.toOrdinal ∧ d.toOrdinal ≤ L)).length := by
  induction S with
  | nil => simp
  | cons a rest ih =>
    by_cases h1 : a.toOrdinal = c
    · rw [List.filter_cons_of_pos (by simp; omega),
        List.filter_cons_of_pos (by simp [h1]),
        List.filter_cons_of_neg (by simp; omega)]
      simp only [List.length_cons]
      omega
    · by_cases h2 : c + 1 ≤ a.toOrdinal ∧ a.toOrdinal ≤ L
      · rw [List.filter_cons_of_pos (by simp; omega),
          List.filter_cons_of_neg (by simp [h1]),
          List.filter_cons_of_pos (by simp; omega)]
        simp only [List.length_cons]
        omega
      · rw [List.filter_cons_of_neg (by simp; omega),
          List.filter_cons_of_neg (by simp [h1]),
          List.filter_cons_of_neg (by simp; omega)]
        exact ih

theorem gapsFrom_length (S : List Date) (last : Date) (hnd : S.Nodup)
    (hvS : ∀ d ∈ S, ValidDate d) (hvlast : ValidDate last) :
    ∀ (fuel : Nat) (cur : Date), ValidDate cur →
      cur.toOrdinal + fuel = last.toOrdinal + 1 →
      (gapsFrom S last fuel cur).length
        + (S.filter (fun d => cur.toOrdinal ≤ d.toOrdinal
            ∧ d.toOrdinal ≤ last.toOrdinal)).length = fuel := by
  intro fuel
  induction fuel with
  | zero =>
    intro cur hvc hord
    have hemp : S.filter (fun d => cur.toOrdinal ≤ d.toOrdinal
        ∧ d.toOrdinal ≤ last.toOrdinal) = [] := by
      rw [List.filter_eq_nil_iff]
      intro d hd
      simp only [decide_eq_true_eq, not_and]
      intro hge
      omega
    rw [hemp]
    simp [gapsFrom]
  | succ fuel ih =>
    intro cur hvc hord
    have hle : DateLe cur last := by
      rw [dateLe_iff_toOrdinal_le hvc hvlast]
      omega
    have hnv : ValidDate (nextDay cur) := nextDay_valid hvc
    have hno : (nextDay cur).toOrdinal = cur.toOrdinal + 1 := nextDay_toOrdinal hvc
    have hsplit := window_split S cur.toOrdinal last.toOrdinal (by omega)
    have hsing : (S.filter (fun d => d.toOrdinal = cur.toOrdinal)).length
        = if cur ∈ S then 1 else 0 := by
      rw [filter_ord_eq S cur hvS hvc]
      exact filter_eq_singleton_length S cur hnd
    have hrec := ih (nextDay cur) hnv (by omega)
    rw [hno] at hrec
    simp only [gapsFrom]
    rw [if_pos hle]
    by_cases hmem : cur ∈ S
    · rw [if_pos hmem] at hsing
      rw [if_pos hmem]
      simp only [List.nil_append]
      omega
    · rw [if_neg hmem] at hsing
      rw [if_neg hmem]
      simp only [List.cons_append, List.nil_append, List.length_cons]
      omega

theorem checkDataFreshness_main (files : List FileInfo) (today : Date)
    (h1 : ¬ ((files.filterMap (fun f => f.date)).dedup).isEmpty)
    (h2 : 1 < ((files.filterMap (fun f => f.date)).dedup).length) :
    checkDataFreshness files today
      = { hasData := true
          latestDate := some (formatDate (List.getLastD
            (sortDates ((files.filterMap (fun f => f.date)).dedup)) ⟨0, 0, 0⟩))
          daysSinceLatest := some ((today.toOrdinal : Int)
            - ((List.getLastD (sortDates
                ((files.filterMap (fun f => f.date)).dedup)) ⟨0, 0, 0⟩).toOrdinal : Int))
          missingRecentDates :=
            (((List.range 7).map (fun i => subDays today (i + 1))).filter
              (fun d => d ∉ (files.filterMap (fun f => f.date)).dedup)).map formatDate
          dataGaps := ((gapsFrom ((files.filterMap (fun f => f.date)).dedup)
              (List.getLastD (sortDates ((files.filterMap (fun f => f.date)).dedup))
                ⟨0, 0, 0⟩)
              ((List.getLastD (sortDates ((files.filterMap (fun f => f.date)).dedup))
                  ⟨0, 0, 0⟩).toOrdinal + 1
                - ((sortDates ((files.filterMap (fun f => f.date)).dedup)).headD
                    ⟨0, 0, 0⟩).toOrdinal)
              ((sortDates ((files.filterMap (fun f => f.date)).dedup)).headD
                ⟨0, 0, 0⟩)).map formatDate).take 10
          totalGaps := some (gapsFrom ((files.filterMap (fun f => f.date)).dedup)
              (List.getLastD (sortDates ((files.filterMap (fun f => f.date)).dedup))
                ⟨0, 0, 0⟩)
              ((List.getLastD (sortDates ((files.filterMap (fun f => f.date)).dedup))
                  ⟨0, 0, 0⟩).toOrdinal + 1
                - ((sortDates ((files.filterMap (fun f => f.date)).dedup)).headD
                    ⟨0, 0, 0⟩).toOrdinal)
              ((sortDates ((files.filterMap (fun f => f.date)).dedup)).headD
                ⟨0, 0, 0⟩)).length } := by
  simp only [checkDataFreshness]
  rw [if_neg h1, if_pos h2]

/-- C7: whenever the scan holds at least two distinct valid dates, the
freshness report's `total_gaps` counts exactly the calendar days strictly
between the earliest and latest observed date that are absent from the
set: with `D` the distinct observed dates and `dmin`/`dmax` its
chronological extremes, `total_gaps + |D| = ordinal(dmax) + 1 -
ordinal(dmin)` (the interval `[dmin, dmax]` splits into the observed dates
and the gaps, and the endpoints are observed, so the gap count is the
count of absent interior days); the reported `data_gaps` list is capped at
10 entries; and at the spec's example — files dated only 2025-01-01 and
2025-01-05 — `total_gaps = 3`. -/
theorem checkDataFreshness_gaps (files : List FileInfo) (today : Date)
    (hlen : 2 ≤ ((files.filterMap (fun f => f.date)).dedup).length)
    (hval : ∀ d ∈ (files.filterMap (fun f => f.date)).dedup, ValidDate d) :
    (∃ dmin dmax,
      dmin ∈ (files.filterMap (fun f => f.date)).dedup ∧
      dmax ∈ (files.filterMap (fun f => f.date)).dedup ∧
      (∀ d ∈ (files.filterMap (fun f => f.date)).dedup,
        dmin.toOrdinal ≤ d.toOrdinal ∧ d.toOrdinal ≤ dmax.toOrdinal) ∧
      ∃ g, (checkDataFreshness files today).totalGaps = some g ∧
        g + ((files.filterMap (fun f => f.date)).dedup).length
          = dmax.toOrdinal + 1 - dmin.toOrdinal) ∧
    (checkDataFreshness files today).dataGaps.length ≤ 10 ∧
    (checkDataFreshness
        [⟨"raw/L/2025-01-01.parquet", "L", some ⟨2025, 1, 1⟩, 1, 1, 0, []⟩,
         ⟨"raw/L/2025-01-05.parquet", "L", some ⟨2025, 1, 5⟩, 1, 1, 0, []⟩]
        today).totalGaps = some 3 := by
  have hDnd : ((files.filterMap (fun f => f.date)).dedup).Nodup :=
    List.nodup_dedup _
  have hDne : ¬ ((files.filterMap (fun f => f.date)).dedup).isEmpty := by
    cases hD2 : (files.filterMap (fun f => f.date)).dedup with
    | nil => rw [hD2] at hlen; simp at hlen
    | cons a l => simp
  have h2 : 1 < ((files.filterMap (fun f => f.date)).dedup).length := by omega
  have hmain := checkDataFreshness_main files today hDne h2
  set D := (files.filterMap (fun f => f.date)).dedup with hD
  have hperm := sortDates_perm D
  have hpair := sortDates_pairwise D
  have hsne : sortDates D ≠ [] := by
    intro hc
    have hle := hperm.length_eq
    rw [hc] at hle
    simp only [List.length_nil] at hle
    omega
  set first := (sortDates D).headD ⟨0, 0, 0⟩ with hfirst
  set latest := List.getLastD (sortDates D) ⟨0, 0, 0⟩ with hlatest
  have hfmem : first ∈ D := hperm.mem_iff.mp (headD_mem _ _ hsne)
  have hlmem : latest ∈ D := hperm.mem_iff.mp (getLastD_mem _ _ hsne)
  have hvf : ValidDate first := hval _ hfmem
  have hvl : ValidDate latest := hval _ hlmem
  have hbounds : ∀ d ∈ D,
      first.toOrdinal ≤ d.toOrdinal ∧ d.toOrdinal ≤ latest.toOrdinal := by
    intro d hd
    have hd2 : d ∈ sortDates D := hperm.mem_iff.mpr hd
    exact ⟨(dateLe_iff_toOrdinal_le hvf (hval d hd)).mp
        (pairwise_headD_le _ _ hpair d hd2),
      (dateLe_iff_toOrdinal_le (hval d hd) hvl).mp
        (pairwise_le_getLastD _ _ hpair d hd2)⟩
  have hfl : first.toOrdinal ≤ latest.toOrdinal := (hbounds first hfmem).2
  have hglen := gapsFrom_length D latest hDnd hval hvl
    (latest.toOrdinal + 1 - first.toOrdinal) first hvf (by omega)
  have hfull : D.filter (fun d => first.toOrdinal ≤ d.toOrdinal
      ∧ d.toOrdinal ≤ latest.toOrdinal) = D := by
    rw [List.filter_eq_self]
    intro d hd
    simp only [decide_eq_true_eq]
    exact hbounds d hd
  rw [hfull] at hglen
  refine ⟨⟨first, latest, hfmem, hlmem, hbounds,
    (gapsFrom D latest (latest.toOrdinal + 1 - first.toOrdinal) first).length,
    ?_, by omega⟩, ?_, ?_⟩
  · rw [hmain]
  · rw [hmain]
    simp only
    rw [List.length_take]
    exact Nat.min_le_left _ _
  · rfl

/-- The two-file scan of the spec example (dates 2025-01-01 and
2025-01-05 only). -/
def c7Files : List FileInfo :=
  [⟨"raw/L/2025-01-01.parquet", "L", some ⟨2025, 1, 1⟩, 1, 1, 0, []⟩,
   ⟨"raw/L/2025-01-05.parquet", "L", some ⟨2025, 1, 5⟩, 1, 1, 0, []⟩]

/-- Witness for C7 at the spec example: the hypotheses hold, the gap total
is 3 (2025-01-02, 2025-01-03, 2025-01-04), and the gap list is within the
10-entry cap. -/
theorem checkDataFreshness_gaps_witness :
    (2 ≤ ((c7Files.filterMap (fun f => f.date)).dedup).length) ∧
    (∀ d ∈ (c7Files.filterMap (fun f => f.date)).dedup, ValidDate d) ∧
    (checkDataFreshness c7Files ⟨2025, 1, 20⟩).totalGaps = some 3 ∧
    (checkDataFreshness c7Files ⟨2025, 1, 20⟩).dataGaps.length ≤ 10 := by
  refine ⟨by decide, by decide, ?_, ?_⟩
  · exact (checkDataFreshness_gaps c7Files ⟨2025, 1, 20⟩ (by decide) (by decide)).2.2
  · exact (checkDataFreshness_gaps c7Files ⟨2025, 1, 20⟩ (by decide) (by decide)).2.1
